import Mathlib

set_option autoImplicit false

/-!
# kni-installer: bootstrap composition and destroy dispatch

A shallow embedding of

* `pkg/types/clustermetadata.go` and `pkg/destroy/destroyer.go` (platform dispatch),
* `pkg/asset/ignition/bootstrap/bootstrap.go` (template context, file tree walk,
  systemd units, parent files, `Load`),
* the two `Load` methods under `pkg/asset/templates/content/bootkube`.

Go strings and byte slices are Lean `String`s.  A Go `error` is a message together with
the answer `os.IsNotExist` gives for it.  Functions that mutate `a.Config` take the config
and return the new one.  A Go panic is an outcome of its own.
-/

namespace KniInstaller

/-! ## Go values -/

/-- A Go `error`: its message, and whether `os.IsNotExist` holds of it. -/
structure GoError where
  msg : String
  notExist : Bool
  deriving DecidableEq, Repr

/-- The call `errors.New(msg)` (also `errors.Errorf` once the message is formatted). -/
def errorsNew (msg : String) : GoError := ⟨msg, false⟩

/-- The call `errors.Wrap(err, msg)`: the message is prefixed, and `os.IsNotExist` does
not look through the wrapper. -/
def errorsWrap (err : GoError) (msg : String) : GoError := ⟨msg ++ ": " ++ err.msg, false⟩

/-- What a call does: it returns a value, or it panics. -/
inductive Outcome (α : Type) where
  | returned (a : α)
  | panicked (v : GoError)
  deriving DecidableEq, Repr

/-! ## `strings`, `path`, `path/filepath`, `strconv` -/

namespace strings

/-- The function `strings.HasSuffix`. -/
def HasSuffix (s suffix : String) : Bool := suffix.data.isSuffixOf s.data

/-- The function `strings.TrimSuffix`: at most one trailing copy of `suffix` is removed. -/
def TrimSuffix (s suffix : String) : String :=
  if HasSuffix s suffix then ⟨s.data.take (s.data.length - suffix.data.length)⟩ else s

/-- The function `strings.Join`. -/
def Join : List String → String → String
  | [], _ => ""
  | [a], _ => a
  | a :: rest, sep => rest.foldl (fun b s => b ++ sep ++ s) a

end strings

namespace path

/-- One element of a slash-separated path read by `Clean`; `stack` holds the
elements kept so far, the last one first. -/
def cleanStep (rooted : Bool) (stack : List (List Char)) (elem : List Char) :
    List (List Char) :=
  if elem = [] ∨ elem = ['.'] then stack
  else if elem = ['.', '.'] then
    match stack with
    | [] => if rooted then [] else [elem]
    | top :: rest => if top = ['.', '.'] then elem :: stack else rest
  else elem :: stack

/-- The function `path.Clean` on characters. -/
def cleanChars (p : List Char) : List Char :=
  let rooted := p.head? = some '/'
  let elems := ((p.splitOn '/').foldl (cleanStep rooted) []).reverse
  let body := ['/'].intercalate elems
  let out := if rooted then '/' :: body else body
  if out = [] then ['.'] else out

/-- The function `path.Clean`. -/
def Clean (p : String) : String := ⟨cleanChars p.data⟩

/-- The function `path.Join` for two elements: empty elements are ignored, the rest is
joined by a slash and cleaned; the result is empty when both are empty. -/
def Join (a b : String) : String :=
  if a = "" then (if b = "" then "" else Clean b)
  else Clean (a ++ "/" ++ b)

/-- The function `path.Base` on characters. -/
def baseChars (p : List Char) : List Char :=
  if p = [] then ['.']
  else
    let stripped := (p.reverse.dropWhile (· = '/')).reverse
    let last := (stripped.reverse.takeWhile (· ≠ '/')).reverse
    if last = [] then ['/'] else last

/-- The function `path.Base`. -/
def Base (p : String) : String := ⟨baseChars p.data⟩

/-- The directory part of `path.Split`: everything up to and including the last slash. -/
def splitDirChars (p : List Char) : List Char :=
  (p.reverse.dropWhile (· ≠ '/')).reverse

/-- The function `path.Dir`. -/
def Dir (p : String) : String := ⟨cleanChars (splitDirChars p.data)⟩

/-- A plain path element, as characters: not empty, without a slash, and neither "."
nor "..". -/
def ElemChars (x : List Char) : Prop :=
  x ≠ [] ∧ '/' ∉ x ∧ x ≠ ['.'] ∧ x ≠ ['.', '.']

instance : DecidablePred ElemChars := fun x => by
  unfold ElemChars
  infer_instance

/-- A plain path element: what a directory entry is called. -/
def IsElem (s : String) : Prop := ElemChars s.data

instance : DecidablePred IsElem := fun s => by
  unfold IsElem
  infer_instance

/-- A relative path made of plain elements: every slash-separated element of `name` is
a plain element. -/
def IsRelative (name : String) : Prop := ∀ x ∈ name.data.splitOn '/', ElemChars x

instance : DecidablePred IsRelative := fun name => by
  unfold IsRelative
  infer_instance

/-- Reading the elements of a file name from the left at depth `d` below the directory it
starts in: an empty element and "." stay, ".." goes one up and must not go above the
start, any other element goes one down; at the end the depth is at least one. -/
def staysBelowFrom : List (List Char) → Nat → Bool
  | [], d => decide (0 < d)
  | e :: rest, d =>
    if e = [] ∨ e = ['.'] then staysBelowFrom rest d
    else if e = ['.', '.'] then
      match d with
      | 0 => false
      | d' + 1 => staysBelowFrom rest d'
    else staysBelowFrom rest (d + 1)

/-- The file name never climbs above the directory it starts in, and names something
below it. -/
def staysBelow (name : String) : Bool := staysBelowFrom (name.data.splitOn '/') 0

/-- The path `p` lies below the directory `root`. -/
def isUnder (root p : String) : Bool := (root.data ++ ['/']).isPrefixOf p.data

/-- The slash-separated path with the given elements. -/
def joinElems (elems : List String) : String :=
  ⟨['/'].intercalate (elems.map String.data)⟩

end path

namespace filepath

/-- The loop of `filepath.Ext`, from the last character backwards; `acc` is what has
been passed already. -/
def extLoop : List Char → List Char → List Char
  | [], _ => []
  | c :: rest, acc =>
    if c = '/' then [] else if c = '.' then '.' :: acc else extLoop rest (c :: acc)

/-- The function `filepath.Ext` (slash-separated paths). -/
def Ext (p : String) : String := ⟨extLoop p.data.reverse []⟩

/-- The function `filepath.Join` for two elements (slash-separated paths). -/
def Join (a b : String) : String := path.Join a b

end filepath

namespace strconv

/-- A hexadecimal digit. -/
def hexDigit (n : Nat) : Char :=
  if n < 10 then Char.ofNat (48 + n) else Char.ofNat (87 + n)

/-- How `strconv.Quote` writes one character of ASCII text; characters beyond ASCII are
kept as they are. -/
def quoteChar (c : Char) : List Char :=
  if c = '"' then ['\\', '"']
  else if c = '\\' then ['\\', '\\']
  else if c = '\n' then ['\\', 'n']
  else if c = '\r' then ['\\', 'r']
  else if c = '\t' then ['\\', 't']
  else if c.toNat = 7 then ['\\', 'a']
  else if c.toNat = 8 then ['\\', 'b']
  else if c.toNat = 12 then ['\\', 'f']
  else if c.toNat = 11 then ['\\', 'v']
  else if c.toNat < 32 ∨ c.toNat = 127 then
    ['\\', 'x', hexDigit (c.toNat / 16), hexDigit (c.toNat % 16)]
  else [c]

/-- The function `strconv.Quote`, which is what the verb `%q` prints for a string. -/
def Quote (s : String) : String := ⟨'"' :: (s.data.flatMap quoteChar ++ ['"'])⟩

end strconv

/-! ## `pkg/types/clustermetadata.go` -/

namespace types

/-- The struct `ClusterPlatformMetadata`; `M` stands for the per-platform metadata
structs, which are never inspected. -/
structure ClusterPlatformMetadata (M : Type) where
  AWS : Option M
  OpenStack : Option M
  Libvirt : Option M
  BareMetal : Option M

/-- The struct `ClusterMetadata`. -/
structure ClusterMetadata (M : Type) extends ClusterPlatformMetadata M where
  ClusterName : String
  ClusterID : String

/-- The method `Platform`; the receiver is a pointer and may be nil. -/
def ClusterPlatformMetadata.Platform {M : Type} : Option (ClusterPlatformMetadata M) → String
  | none => ""
  | some cpm =>
    if cpm.AWS.isSome then "aws"
    else if cpm.Libvirt.isSome then "libvirt"
    else if cpm.OpenStack.isSome then "openstack"
    else if cpm.BareMetal.isSome then "baremetal"
    else ""

/-- The four platform variants of the metadata. -/
inductive Variant where
  | AWS
  | Libvirt
  | OpenStack
  | BareMetal
  deriving DecidableEq, Repr

/-- The name under which a variant's destroyer is registered. -/
def Variant.name : Variant → String
  | .AWS => "aws"
  | .Libvirt => "libvirt"
  | .OpenStack => "openstack"
  | .BareMetal => "baremetal"

/-- Exactly one variant of the metadata is populated, and it is `v`. -/
def ClusterPlatformMetadata.OnlyPopulated {M : Type} (cpm : ClusterPlatformMetadata M)
    (v : Variant) : Prop :=
  (cpm.AWS.isSome = true ↔ v = .AWS) ∧ (cpm.Libvirt.isSome = true ↔ v = .Libvirt) ∧
  (cpm.OpenStack.isSome = true ↔ v = .OpenStack) ∧
  (cpm.BareMetal.isSome = true ↔ v = .BareMetal)

/-- No variant of the metadata is populated. -/
def ClusterPlatformMetadata.NonePopulated {M : Type} (cpm : ClusterPlatformMetadata M) :
    Prop :=
  cpm.AWS = none ∧ cpm.Libvirt = none ∧ cpm.OpenStack = none ∧ cpm.BareMetal = none

end types

/-! ## `pkg/destroy/destroyer.go` -/

namespace destroy

/-- A registered constructor, `providers.NewFunc`: logger and metadata to a
`(Destroyer, error)` pair. -/
abbrev NewFunc (L M D : Type) := L → types.ClusterMetadata M → Option D × Option GoError

/-- The map `providers.Registry`. -/
abbrev Registry (L M D : Type) := String → Option (NewFunc L M D)

/-- The four `return` statements of `New`. -/
inductive NewReturn (D : Type) where
  /-- `return nil, err` after `cluster.LoadMetadata` failed. -/
  | loadFailed (err : GoError)
  /-- `return nil, errors.New("no platform configured in metadata")`. -/
  | noPlatform
  /-- `return nil, errors.Errorf("no destroyers registered for %q", platform)`. -/
  | notRegistered (platform : String)
  /-- `return creator(logger, metadata)`, with the pair the constructor gave. -/
  | created (r : Option D × Option GoError)

/-- The error of the `noPlatform` return. -/
def errNoPlatform : GoError := errorsNew "no platform configured in metadata"

/-- The error of the `notRegistered` return. -/
def errNotRegistered (platform : String) : GoError :=
  errorsNew ("no destroyers registered for " ++ strconv.Quote platform)

/-- The `(Destroyer, error)` pair a return statement hands to the caller. -/
def NewReturn.values {D : Type} : NewReturn D → Option D × Option GoError
  | .loadFailed err => (none, some err)
  | .noPlatform => (none, some errNoPlatform)
  | .notRegistered platform => (none, some (errNotRegistered platform))
  | .created r => r

/-- The function `New`.  `LoadMetadata` is `cluster.LoadMetadata` and `registry` is
`providers.Registry`. -/
def New {L M D : Type} (LoadMetadata : String → Except GoError (types.ClusterMetadata M))
    (registry : Registry L M D) (logger : L) (rootDir : String) : NewReturn D :=
  match LoadMetadata rootDir with
  | .error err => .loadFailed err
  | .ok metadata =>
    let platform := types.ClusterPlatformMetadata.Platform
      (some metadata.toClusterPlatformMetadata)
    if platform = "" then .noPlatform
    else
      match registry platform with
      | none => .notRegistered platform
      | some creator => .created (creator logger metadata)

end destroy

/-! ## Assets, the bundle, and the helpers of `pkg/asset/ignition` -/

namespace asset

/-- The struct `asset.File`. -/
structure File where
  Filename : String
  Data : String
  deriving DecidableEq, Repr

/-- The interface `asset.FileFetcher`: `FetchByName` gives the file or an error. -/
abbrev FileFetcher := String → Except GoError File

end asset

namespace igntypes

/-- A file of the bundle (`igntypes.File`): target path, owning user, mode, contents and
the append flag. -/
structure File where
  Path : String
  User : String
  Mode : Nat
  Contents : String
  Append : Bool
  deriving DecidableEq, Repr

/-- A drop-in fragment of a unit (`igntypes.SystemdDropin`). -/
structure SystemdDropin where
  Name : String
  Contents : String
  deriving DecidableEq, Repr

/-- A systemd unit of the bundle (`igntypes.Unit`); `Enabled` is a pointer to a bool. -/
structure Unit where
  Name : String
  Contents : String
  Dropins : List SystemdDropin
  Enabled : Option Bool
  deriving DecidableEq, Repr

/-- A user of the bundle (`igntypes.PasswdUser`). -/
structure PasswdUser where
  Name : String
  SSHAuthorizedKeys : List String
  deriving DecidableEq, Repr

/-- The bundle (`igntypes.Config`): `Ignition.Version`, `Storage.Files`, `Systemd.Units`
and `Passwd.Users`. -/
structure Config where
  IgnitionVersion : String
  StorageFiles : List File
  SystemdUnits : List Unit
  PasswdUsers : List PasswdUser
  deriving DecidableEq, Repr

end igntypes

namespace ignition

/-- Modelled from the spec: `ignition.FileFromBytes` (pkg/asset/ignition) is not among the
sources.  A file output is target path, owning user, mode and byte content, with the
append flag not set. -/
def FileFromBytes (path username : String) (mode : Nat) (contents : String) :
    igntypes.File :=
  { Path := path, User := username, Mode := mode, Contents := contents, Append := false }

/-- Modelled from the spec: `ignition.FilesFromAsset` (pkg/asset/ignition) is not among
the sources.  Each file of the asset, in order, is placed below `root` with the given
owner and mode; `files` is what the asset's `Files()` returns. -/
def FilesFromAsset (root username : String) (mode : Nat) (files : List asset.File) :
    List igntypes.File :=
  files.map fun f => FileFromBytes (filepath.Join root f.Filename) username mode f.Data

end ignition

/-- The asset types: those the bootstrap asset names, by package (`installconfig`,
`kubeconfig`, `machines`, `manifests`, and the rest from `tls`), and after them the three
asset types the sources define (`bootstrap.Bootstrap` and the two of `bootkube`). -/
inductive AssetId where
  | InstallConfig
  | AdminClient
  | Kubelet
  | Master
  | Manifests
  | Openshift
  | AdminKubeConfigCABundle
  | AggregatorCA
  | AggregatorCABundle
  | AggregatorClientCertKey
  | AggregatorSignerCertKey
  | APIServerCertKey
  | APIServerProxyCertKey
  | EtcdCA
  | EtcdCABundle
  | EtcdClientCertKey
  | EtcdMetricsCABundle
  | EtcdMetricsSignerClientCertKey
  | EtcdMetricsSignerServerCertKey
  | EtcdSignerCertKey
  | EtcdSignerClientCertKey
  | JournalCertKey
  | KubeAPIServerLBCABundle
  | KubeAPIServerLBServerCertKey
  | KubeAPIServerLBSignerCertKey
  | KubeAPIServerLocalhostCABundle
  | KubeAPIServerLocalhostServerCertKey
  | KubeAPIServerLocalhostSignerCertKey
  | KubeAPIServerServiceNetworkCABundle
  | KubeAPIServerServiceNetworkServerCertKey
  | KubeAPIServerServiceNetworkSignerCertKey
  | KubeAPIServerCompleteCABundle
  | KubeAPIServerCompleteClientCABundle
  | KubeAPIServerToKubeletCABundle
  | KubeAPIServerToKubeletClientCertKey
  | KubeAPIServerToKubeletSignerCertKey
  | KubeCA
  | KubeControlPlaneCABundle
  | KubeControlPlaneKubeControllerManagerClientCertKey
  | KubeControlPlaneKubeSchedulerClientCertKey
  | KubeControlPlaneSignerCertKey
  | KubeletBootstrapCABundle
  | KubeletClientCABundle
  | KubeletClientCertKey
  | KubeletCSRSignerCertKey
  | KubeletServingCABundle
  | MCSCertKey
  | RootCA
  | ServiceAccountKeyPair
  | Bootstrap
  | EtcdCAConfigMap
  | OpenshiftConfigSecretEtcdMetricClient
  deriving DecidableEq, Repr

namespace types

/-- The part of `types.MachinePool` that is read: `Replicas` is a pointer to an int64. -/
structure MachinePool where
  Replicas : Option Int

/-- The part of `types.InstallConfig` that is read; `ClusterDomain` is what the method
`ClusterDomain()` returns. -/
structure InstallConfig where
  ControlPlane : MachinePool
  ClusterDomain : String
  PullSecret : String
  SSHKey : String

end types

namespace tls

/-- The part of the resolved `tls.RootCA` that is read: the file `CertFile()` returns,
the bytes `Cert()` returns, and the private key, which is held but never asked for. -/
structure RootCA where
  CertFile : asset.File
  Cert : String
  Key : String

end tls

namespace asset

/-- The resolved dependencies (`asset.Parents`), a store keyed by asset type.  For an
asset type the store holds, it gives what is read of the asset: what `Files()` returns,
and for the root CA and the install config their own values.  A type the store does not
hold has no entry. -/
structure Parents where
  Files : AssetId → Option (List asset.File)
  RootCA : Option tls.RootCA
  InstallConfig : Option types.InstallConfig

/-- The store holds the asset of the type `a`. -/
def Parents.Has (p : Parents) : AssetId → Bool
  | .InstallConfig => p.InstallConfig.isSome
  | .RootCA => p.RootCA.isSome
  | a => (p.Files a).isSome

/-- The value of the panic of a `Get` for a type the store does not hold. -/
def errNotInStore : GoError := errorsNew "reflect: call of reflect.Value.Elem on zero Value"

/-- Modelled from the spec: `Parents.Get` (pkg/asset) is not among the sources.  The
store is a keyed container of already-resolved artifacts, indexed by type identity;
`Get` copies the entry of the asked type into the asset, and for a type the store does
not hold there is no entry to copy: the call does not return.  This is
`dependencies.Get(asset)` followed by `asset.Files()`. -/
def Parents.GetFiles (p : Parents) (a : AssetId) : Outcome (List asset.File) :=
  match p.Files a with
  | some files => .returned files
  | none => .panicked errNotInStore

/-- Modelled from the spec: `Parents.Get` (pkg/asset) is not among the sources; see
`GetFiles`.  This is `dependencies.Get(rootCA)`. -/
def Parents.GetRootCA (p : Parents) : Outcome tls.RootCA :=
  match p.RootCA with
  | some rootCA => .returned rootCA
  | none => .panicked errNotInStore

/-- Modelled from the spec: `Parents.Get` (pkg/asset) is not among the sources; see
`GetFiles`.  This is `dependencies.Get(installConfig)` followed by
`installConfig.Config`. -/
def Parents.GetInstallConfig (p : Parents) : Outcome types.InstallConfig :=
  match p.InstallConfig with
  | some installConfig => .returned installConfig
  | none => .panicked errNotInStore

end asset

/-! ## `pkg/asset/ignition/bootstrap/bootstrap.go` -/

/-- The embedded file system `data.Assets`, as the tree below an opened path.  A file
carries what `ioutil.ReadAll` gives for it; a directory carries the error of `Readdir`
(or of the `Close` after it) when there is one, and its children in the order `Readdir`
lists them; a broken entry is one that `Open` or `Stat` fails on. -/
inductive FsNode where
  | file (name : String) (contents : Except GoError String)
  | dir (name : String) (readdirErr : Option GoError) (children : List FsNode)
  | broken (name : String) (err : GoError)

/-- The name of an entry, `Name()` of its `os.FileInfo`. -/
def FsNode.Name : FsNode → String
  | .file name _ => name
  | .dir name _ _ => name
  | .broken name _ => name

/-- What `ioutil.ReadAll` gives for an opened entry; a directory cannot be read. -/
def FsNode.ReadAll : FsNode → Except GoError String
  | .file _ contents => contents
  | .dir name _ _ => .error (errorsNew ("cannot Read from directory " ++ name))
  | .broken _ err => .error err

mutual

/-- Every entry of the tree is called by a plain path element. -/
def FsNode.wellNamed : FsNode → Bool
  | .file name _ => decide (path.IsElem name)
  | .dir name _ children => decide (path.IsElem name) && FsNode.allWellNamed children
  | .broken name _ => decide (path.IsElem name)

/-- Every entry of every tree of the list is called by a plain path element. -/
def FsNode.allWellNamed : List FsNode → Bool
  | [] => true
  | child :: rest => child.wellNamed && FsNode.allWellNamed rest

end

mutual

/-- The leaf source files of a tree in the order of the walk, each as the name of its
parent directory and its own name; `dir` is the name of the directory that holds the
tree.  A directory that cannot be listed and a broken entry have none. -/
def FsNode.sourceFiles (dir : String) : FsNode → List (String × String)
  | .file name _ => [(dir, name)]
  | .dir name none children => FsNode.sourceFilesOf name children
  | .dir _ (some _) _ => []
  | .broken _ _ => []

/-- The leaf source files of the children of the directory `dir`. -/
def FsNode.sourceFilesOf (dir : String) : List FsNode → List (String × String)
  | [] => []
  | child :: rest => child.sourceFiles dir ++ FsNode.sourceFilesOf dir rest

end

/-- The package `text/template`: `template.New(name).Parse(text)` and
`tmpl.Execute(buf, data)`, the latter giving the text written to the buffer. -/
structure TemplateEngine (T C : Type) where
  Parse : String → String → Except GoError T
  Execute : T → C → Except GoError String

namespace bootstrap

def rootDir : String := "/opt/openshift"

def bootstrapIgnFilename : String := "bootstrap.ign"

def etcdCertSignerImage : String :=
  "quay.io/coreos/kube-etcd-signer-server:678cc8e6841e2121ebfdb6e2db568fce290b67d6"

def ignitionUser : String := "core"

def defaultReleaseImage : String :=
  "registry.svc.ci.openshift.org/openshift/origin-release:v4.0"

/-- The struct `bootstrapTemplateData`. -/
structure bootstrapTemplateData where
  EtcdCertSignerImage : String
  EtcdCluster : String
  PullSecret : String
  ReleaseImage : String
  deriving DecidableEq, Repr

/-- The struct `Bootstrap`; both fields are pointers. -/
structure Bootstrap where
  Config : Option igntypes.Config
  File : Option asset.File
  deriving DecidableEq, Repr

/-- The method `Files`. -/
def Bootstrap.Files (a : Bootstrap) : List asset.File :=
  match a.File with
  | some file => [file]
  | none => []

/-- The text `fmt.Sprintf("https://etcd-%d.%s:2379", i, domain)` for an index `i`. -/
def etcdEndpoint (i : Nat) (domain : String) : String :=
  "https://etcd-" ++ Nat.repr i ++ "." ++ domain ++ ":2379"

/-- The warning logged when the release image is overridden. -/
def overrideWarning : String :=
  "Found override for ReleaseImage. Please be warned, this is not advised"

/-- The largest length `make([]string, n)` succeeds for, on a machine whose memory
allows `maxStrings` strings: a string header takes 16 bytes of a 64-bit address space,
so on no machine is a slice of 2^60 strings or more made. -/
def makesliceLimit (maxStrings : Nat) : Nat :=
  min maxStrings (2 ^ 60 - 1)

/-- The method `getTemplateData`.  `env` is `os.LookupEnv`; the value returned is the
template data, the error (always nil) and the warnings logged.  The slice of endpoints is
made with `Replicas` entries and filled index by index; the runtime panics for a length
that is negative or beyond `makesliceLimit maxStrings`, where `maxStrings` is what the
memory of the machine allows. -/
def getTemplateData (maxStrings : Nat) (env : String → Option String)
    (installConfig : types.InstallConfig) :
    Outcome (bootstrapTemplateData × Option GoError × List String) :=
  match installConfig.ControlPlane.Replicas with
  | none => .panicked
      (errorsNew "runtime error: invalid memory address or nil pointer dereference")
  | some replicas =>
    if replicas < 0 ∨ (makesliceLimit maxStrings : Int) < replicas then
      .panicked (errorsNew "runtime error: makeslice: len out of range")
    else
      let etcdEndpoints := (List.range replicas.toNat).foldl
        (fun s i => s.set i (etcdEndpoint i installConfig.ClusterDomain))
        (List.replicate replicas.toNat "")
      let override :=
        match env "OPENSHIFT_INSTALL_RELEASE_IMAGE_OVERRIDE" with
        | some ri => if ri ≠ "" then some ri else none
        | none => none
      let releaseImage := override.getD defaultReleaseImage
      let warnings := if override.isSome then [overrideWarning] else []
      .returned
        ({ EtcdCertSignerImage := etcdCertSignerImage,
           PullSecret := installConfig.PullSecret,
           ReleaseImage := releaseImage,
           EtcdCluster := strings.Join etcdEndpoints "," }, none, warnings)

/-- The function `applyTemplateData`: a failed execution panics. -/
def applyTemplateData {T C : Type} (eng : TemplateEngine T C) (template : T)
    (templateData : C) : Outcome String :=
  match eng.Execute template templateData with
  | .error err => .panicked err
  | .ok text => .returned text

/-- The function `readFile`; `reader` is what `ioutil.ReadAll(reader)` gives. -/
def readFile {T C : Type} (eng : TemplateEngine T C) (name : String)
    (reader : Except GoError String) (templateData : C) :
    Outcome (String × String × Option GoError) :=
  match reader with
  | .error err => .returned (name, "", some err)
  | .ok data =>
    if filepath.Ext name = ".template" then
      let name := strings.TrimSuffix name ".template"
      match eng.Parse name data with
      | .error err => .returned (name, data, some err)
      | .ok tmpl =>
        match applyTemplateData eng tmpl templateData with
        | .panicked v => .panicked v
        | .returned stringData => .returned (name, stringData, none)
    else .returned (name, data, none)

/-- The mode and the append flag of the file metadata table, by the name of the
directory that holds the source file and the name of the file. -/
def storageFileMeta (dir name : String) : Nat × Bool :=
  if dir = "bin" then (0o555, false)
  else if name = "motd" then (0o644, true)
  else (0o600, false)

/-- What the walk emits for a source file, given as the name of its parent directory and
its own name: owner root, mode and append flag by the table. -/
def EmitsFor (src : String × String) (f : igntypes.File) : Prop :=
  f.User = "root" ∧ (f.Mode, f.Append) = storageFileMeta src.1 src.2

mutual

/-- The method `addStorageFiles`; `node` is what `data.Assets.Open(uri)` opens. -/
def addStorageFiles {T C : Type} (eng : TemplateEngine T C) (base uri : String)
    (node : FsNode) (templateData : C) (cfg : igntypes.Config) :
    Outcome (igntypes.Config × Option GoError) :=
  match node with
  | .broken _ err => .returned (cfg, some err)
  | .dir _ (some err) _ => .returned (cfg, some err)
  | .dir _ none children => addStorageFilesChildren eng base uri children templateData cfg
  | .file name contents =>
    match readFile eng name contents templateData with
    | .panicked v => .panicked v
    | .returned (_, _, some err) => .returned (cfg, some err)
    | .returned (_, data, none) =>
      let filename := path.Base uri
      let modeAppend : Nat × Bool :=
        if path.Base (path.Dir uri) = "bin" then (0o555, false)
        else if filename = "motd" then (0o644, true)
        else (0o600, false)
      let ign := { ignition.FileFromBytes (strings.TrimSuffix base ".template") "root"
                     modeAppend.1 data with Append := modeAppend.2 }
      .returned ({ cfg with StorageFiles := cfg.StorageFiles ++ [ign] }, none)

/-- The loop of `addStorageFiles` over the children of a directory. -/
def addStorageFilesChildren {T C : Type} (eng : TemplateEngine T C) (base uri : String)
    (children : List FsNode) (templateData : C) (cfg : igntypes.Config) :
    Outcome (igntypes.Config × Option GoError) :=
  match children with
  | [] => .returned (cfg, none)
  | child :: rest =>
    match addStorageFiles eng (path.Join base child.Name) (path.Join uri child.Name) child
        templateData cfg with
    | .panicked v => .panicked v
    | .returned (cfg', some err) => .returned (cfg', some err)
    | .returned (cfg', none) => addStorageFilesChildren eng base uri rest templateData cfg'

end

/-- The unit names of the map `enabled` in `addSystemdUnits`. -/
def enabledUnits : List String :=
  ["progress.service", "kubelet.service", "keepalived.service",
   "systemd-journal-gatewayd.socket"]

/-- The inner loop of `addSystemdUnits` over the children of a drop-in directory;
`dropins` is the slice built so far. -/
def readDropins {T C : Type} (eng : TemplateEngine T C) (templateData : C) :
    List FsNode → List igntypes.SystemdDropin →
    Outcome (List igntypes.SystemdDropin × Option GoError)
  | [], dropins => .returned (dropins, none)
  | .broken _ err :: _, dropins => .returned (dropins, some err)
  | child :: rest, dropins =>
    match readFile eng child.Name child.ReadAll templateData with
    | .panicked v => .panicked v
    | .returned (_, _, some err) => .returned (dropins, some err)
    | .returned (childName, contents, none) =>
      readDropins eng templateData rest
        (dropins ++ [{ Name := childName, Contents := contents }])

/-- The pointer `Enabled` of a unit called `name`: set to true for a name of the map
`enabled`, left nil otherwise. -/
def unitEnabled (name : String) : Option Bool :=
  if name ∈ enabledUnits then some true else none

/-- The outer loop of `addSystemdUnits` over the children of the units directory. -/
def addSystemdUnitsLoop {T C : Type} (eng : TemplateEngine T C) (templateData : C) :
    List FsNode → igntypes.Config → Outcome (igntypes.Config × Option GoError)
  | [], cfg => .returned (cfg, none)
  | .broken _ err :: _, cfg => .returned (cfg, some err)
  | .dir dname readdirErr children :: rest, cfg =>
    if ¬ strings.HasSuffix dname ".d" then addSystemdUnitsLoop eng templateData rest cfg
    else
      match readdirErr with
      | some err => .returned (cfg, some err)
      | none =>
        match readDropins eng templateData children [] with
        | .panicked v => .panicked v
        | .returned (_, some err) => .returned (cfg, some err)
        | .returned (dropins, none) =>
          let name := strings.TrimSuffix dname ".d"
          let unit : igntypes.Unit :=
            { Name := name, Contents := "", Dropins := dropins, Enabled := unitEnabled name }
          addSystemdUnitsLoop eng templateData rest
            { cfg with SystemdUnits := cfg.SystemdUnits ++ [unit] }
  | .file fname contents :: rest, cfg =>
    match readFile eng fname contents templateData with
    | .panicked v => .panicked v
    | .returned (_, _, some err) => .returned (cfg, some err)
    | .returned (name, contents, none) =>
      let unit : igntypes.Unit :=
        { Name := name, Contents := contents, Dropins := [], Enabled := unitEnabled name }
      addSystemdUnitsLoop eng templateData rest
        { cfg with SystemdUnits := cfg.SystemdUnits ++ [unit] }

/-- The method `addSystemdUnits`; `node` is what `data.Assets.Open(uri)` opens, and the
entry opened at `path.Join(uri, childInfo.Name())` is the child itself. -/
def addSystemdUnits {T C : Type} (eng : TemplateEngine T C) (node : FsNode)
    (templateData : C) (cfg : igntypes.Config) :
    Outcome (igntypes.Config × Option GoError) :=
  match node with
  | .broken _ err => .returned (cfg, some err)
  | .file name _ => .returned (cfg, some (errorsNew ("cannot Readdir from file " ++ name)))
  | .dir _ (some err) _ => .returned (cfg, some err)
  | .dir _ none children => addSystemdUnitsLoop eng templateData children cfg

/-- The children of the units directory that stand for a unit: the files and the
directories whose name ends in ".d". -/
def unitSources (children : List FsNode) : List FsNode :=
  children.filter fun child =>
    match child with
    | .file _ _ => true
    | .dir name _ _ => strings.HasSuffix name ".d"
    | .broken _ _ => false

/-- The unit sources below the entry that `addSystemdUnits` opens. -/
def unitSourcesOf : FsNode → List FsNode
  | .dir _ none children => unitSources children
  | _ => []

/-- The unit `u` is the one that stands for the source `src`.  Its enabled flag is set
to true when its name is one of the four listed and left unset otherwise.  For a file
the name is the file name without the template marker.  For a drop-in directory the name
is the directory name without ".d", the contents are empty, and there is one drop-in per
child, called by the child's name without the template marker. -/
def UnitFor (src : FsNode) (u : igntypes.Unit) : Prop :=
  (u.Enabled = some true ↔
    u.Name ∈ ["progress.service", "kubelet.service", "keepalived.service",
      "systemd-journal-gatewayd.socket"]) ∧
  (u.Name ∉ ["progress.service", "kubelet.service", "keepalived.service",
      "systemd-journal-gatewayd.socket"] → u.Enabled = none) ∧
  match src with
  | .file name _ => u.Name = strings.TrimSuffix name ".template"
  | .dir name _ children =>
    u.Name = strings.TrimSuffix name ".d" ∧ u.Contents = "" ∧
    List.Forall₂ (fun (child : FsNode) (d : igntypes.SystemdDropin) =>
      d.Name = strings.TrimSuffix child.Name ".template") children u.Dropins
  | .broken _ _ => False

/-- The entry can be opened and `readFile` on it returns without an error. -/
def ReadsOk {T C : Type} (eng : TemplateEngine T C) (templateData : C) (node : FsNode) :
    Prop :=
  (∀ n e, node ≠ .broken n e) ∧
  ∃ name data, readFile eng node.Name node.ReadAll templateData = .returned (name, data, none)

/-- Nothing goes wrong with the child of the units directory: it can be opened; a file
is read without an error; a directory whose name ends in ".d" can be listed and each of
its children is read without an error. -/
def UnitChildOk {T C : Type} (eng : TemplateEngine T C) (templateData : C) : FsNode → Prop
  | .broken _ _ => False
  | .file name contents =>
    ∃ n data, readFile eng name contents templateData = .returned (n, data, none)
  | .dir dname readdirErr children =>
    strings.HasSuffix dname ".d" = true →
      readdirErr = none ∧ ∀ child ∈ children, ReadsOk eng templateData child

/-- The first list of `addParentFiles`. -/
def manifestAssets : List AssetId := [.Manifests, .Openshift, .Master]

/-- The second list of `addParentFiles`. -/
def credentialAssets : List AssetId :=
  [.AdminClient, .Kubelet, .AdminKubeConfigCABundle, .AggregatorCA, .AggregatorCABundle,
   .AggregatorClientCertKey, .AggregatorSignerCertKey, .APIServerCertKey,
   .APIServerProxyCertKey, .EtcdCA, .EtcdCABundle, .EtcdClientCertKey,
   .EtcdMetricsCABundle, .EtcdMetricsSignerClientCertKey, .EtcdMetricsSignerServerCertKey,
   .EtcdSignerCertKey, .EtcdSignerClientCertKey, .KubeAPIServerLBCABundle,
   .KubeAPIServerLBServerCertKey, .KubeAPIServerLBSignerCertKey,
   .KubeAPIServerLocalhostCABundle, .KubeAPIServerLocalhostServerCertKey,
   .KubeAPIServerLocalhostSignerCertKey, .KubeAPIServerServiceNetworkCABundle,
   .KubeAPIServerServiceNetworkServerCertKey, .KubeAPIServerServiceNetworkSignerCertKey,
   .KubeAPIServerCompleteCABundle, .KubeAPIServerCompleteClientCABundle,
   .KubeAPIServerToKubeletCABundle, .KubeAPIServerToKubeletClientCertKey,
   .KubeAPIServerToKubeletSignerCertKey, .KubeCA, .KubeControlPlaneCABundle,
   .KubeControlPlaneKubeControllerManagerClientCertKey,
   .KubeControlPlaneKubeSchedulerClientCertKey, .KubeControlPlaneSignerCertKey,
   .KubeletBootstrapCABundle, .KubeletClientCABundle, .KubeletClientCertKey,
   .KubeletCSRSignerCertKey, .KubeletServingCABundle, .MCSCertKey, .ServiceAccountKeyPair]

/-- One of the two `for` loops of `addParentFiles`: each asset of the list is asked of
the store, and its files are appended with the given owner and mode. -/
def addAssetFiles (dependencies : asset.Parents) (username : String) (mode : Nat) :
    List AssetId → igntypes.Config → Outcome igntypes.Config
  | [], cfg => .returned cfg
  | a :: rest, cfg =>
    match dependencies.GetFiles a with
    | .panicked v => .panicked v
    | .returned files =>
      addAssetFiles dependencies username mode rest
        { cfg with StorageFiles := cfg.StorageFiles ++
            ignition.FilesFromAsset rootDir username mode files }

/-- The method `addParentFiles`. -/
def addParentFiles (dependencies : asset.Parents) (cfg : igntypes.Config) :
    Outcome igntypes.Config :=
  match addAssetFiles dependencies "root" 0o644 manifestAssets cfg with
  | .panicked v => .panicked v
  | .returned cfg =>
    match addAssetFiles dependencies "root" 0o600 credentialAssets cfg with
    | .panicked v => .panicked v
    | .returned cfg =>
      match dependencies.GetRootCA with
      | .panicked v => .panicked v
      | .returned rootCA =>
        let rootCAFile := ignition.FileFromBytes
          (filepath.Join rootDir rootCA.CertFile.Filename) "root" 0o644 rootCA.Cert
        let cfg := { cfg with StorageFiles := cfg.StorageFiles ++ [rootCAFile] }
        match dependencies.GetFiles AssetId.JournalCertKey with
        | .panicked v => .panicked v
        | .returned files =>
          let journal := ignition.FilesFromAsset rootDir "systemd-journal-gateway" 0o600
            files
          .returned { cfg with StorageFiles := cfg.StorageFiles ++ journal }

/-- The files `addParentFiles` is to contribute, in order, for the files `files a` of
each asset `a` and the root CA: the manifest and machine files (root, 0644), the
kubeconfig and tls credential files (root, 0600), the root CA certificate alone (root,
0644), the journal files (systemd-journal-gateway, 0600); each at the path
`filepath.Join` gives for /opt/openshift and its file name. -/
def parentFilesSpec (files : AssetId → List asset.File) (rootCA : tls.RootCA) :
    List igntypes.File :=
  ([AssetId.Manifests, AssetId.Openshift, AssetId.Master].flatMap fun a =>
    (files a).map fun f =>
      (⟨filepath.Join "/opt/openshift" f.Filename, "root", 0o644, f.Data, false⟩
        : igntypes.File)) ++
  (credentialAssets.flatMap fun a =>
    (files a).map fun f =>
      (⟨filepath.Join "/opt/openshift" f.Filename, "root", 0o600, f.Data, false⟩
        : igntypes.File)) ++
  [⟨filepath.Join "/opt/openshift" rootCA.CertFile.Filename, "root", 0o644, rootCA.Cert,
    false⟩] ++
  ((files AssetId.JournalCertKey).map fun f =>
    (⟨filepath.Join "/opt/openshift" f.Filename, "systemd-journal-gateway", 0o600, f.Data,
      false⟩ : igntypes.File))

/-- The method `Dependencies`. -/
def Dependencies : List AssetId :=
  [.InstallConfig, .AdminClient, .Kubelet, .Master, .Manifests, .Openshift,
   .AdminKubeConfigCABundle, .AggregatorCA, .AggregatorCABundle, .AggregatorClientCertKey,
   .AggregatorSignerCertKey, .APIServerCertKey, .APIServerProxyCertKey, .EtcdCA,
   .EtcdCABundle, .EtcdClientCertKey, .EtcdMetricsCABundle,
   .EtcdMetricsSignerClientCertKey, .EtcdMetricsSignerServerCertKey, .EtcdSignerCertKey,
   .EtcdSignerClientCertKey, .JournalCertKey, .KubeAPIServerLBCABundle,
   .KubeAPIServerLBServerCertKey, .KubeAPIServerLBSignerCertKey,
   .KubeAPIServerLocalhostCABundle, .KubeAPIServerLocalhostServerCertKey,
   .KubeAPIServerLocalhostSignerCertKey, .KubeAPIServerServiceNetworkCABundle,
   .KubeAPIServerServiceNetworkServerCertKey, .KubeAPIServerServiceNetworkSignerCertKey,
   .KubeAPIServerCompleteCABundle, .KubeAPIServerCompleteClientCABundle,
   .KubeAPIServerToKubeletCABundle, .KubeAPIServerToKubeletClientCertKey,
   .KubeAPIServerToKubeletSignerCertKey, .KubeCA, .KubeControlPlaneCABundle,
   .KubeControlPlaneKubeControllerManagerClientCertKey,
   .KubeControlPlaneKubeSchedulerClientCertKey, .KubeControlPlaneSignerCertKey,
   .KubeletBootstrapCABundle, .KubeletClientCABundle, .KubeletClientCertKey,
   .KubeletCSRSignerCertKey, .KubeletServingCABundle, .MCSCertKey, .RootCA,
   .ServiceAccountKeyPair]

/-- The text of `igntypes.MaxVersion.String()` for the 2.2 configuration types. -/
def MaxVersion : String := "2.2.0"

/-- The method `Generate`.  `Assets` is `data.Assets.Open`, `Marshal` is `json.Marshal`,
`maxStrings` is the limit of `getTemplateData`.  The value is the asset afterwards, the
error and the warnings logged. -/
def Generate {T : Type} (eng : TemplateEngine T bootstrapTemplateData) (maxStrings : Nat)
    (env : String → Option String) (Assets : String → FsNode)
    (Marshal : igntypes.Config → Except GoError String)
    (dependencies : asset.Parents) (a : Bootstrap) :
    Outcome (Bootstrap × Option GoError × List String) :=
  match dependencies.GetInstallConfig with
  | .panicked v => .panicked v
  | .returned installConfig =>
    match getTemplateData maxStrings env installConfig with
    | .panicked v => .panicked v
    | .returned (_, some err, warnings) =>
      .returned (a, some (errorsWrap err "failed to get bootstrap templates"), warnings)
    | .returned (templateData, none, warnings) =>
      let config : igntypes.Config :=
        { IgnitionVersion := MaxVersion, StorageFiles := [], SystemdUnits := [],
          PasswdUsers := [] }
      match addStorageFiles eng "/" "bootstrap/files" (Assets "bootstrap/files")
          templateData config with
      | .panicked v => .panicked v
      | .returned (config, some err) =>
        .returned ({ a with Config := some config }, some err, warnings)
      | .returned (config, none) =>
        match addSystemdUnits eng (Assets "bootstrap/systemd/units") templateData
            config with
        | .panicked v => .panicked v
        | .returned (config, some err) =>
          .returned ({ a with Config := some config }, some err, warnings)
        | .returned (config, none) =>
          match addParentFiles dependencies config with
          | .panicked v => .panicked v
          | .returned config =>
            let config := { config with PasswdUsers := config.PasswdUsers ++
              [{ Name := "core", SSHAuthorizedKeys := [installConfig.SSHKey] }] }
            match Marshal config with
            | .error err =>
              .returned ({ a with Config := some config },
                some (errorsWrap err "failed to Marshal Ignition config"), warnings)
            | .ok data =>
              .returned ({ Config := some config,
                           File := some { Filename := bootstrapIgnFilename, Data := data } },
                none, warnings)

/-- The method `Load` of `Bootstrap`; `Unmarshal` is `json.Unmarshal` into a fresh
`igntypes.Config`.  The value is the asset afterwards, `found` and the error. -/
def Bootstrap.Load (Unmarshal : String → Except GoError igntypes.Config)
    (a : Bootstrap) (f : asset.FileFetcher) : Bootstrap × Bool × Option GoError :=
  match f bootstrapIgnFilename with
  | .error err => if err.notExist then (a, false, none) else (a, false, some err)
  | .ok file =>
    match Unmarshal file.Data with
    | .error err => (a, false, some (errorsWrap err "failed to unmarshal"))
    | .ok config => ({ File := some file, Config := some config }, true, none)

end bootstrap

/-! ## `pkg/asset/templates/content/bootkube` -/

namespace bootkube

def etcdCAConfigMapFileName : String := "etcd-ca-bundle-configmap.yaml.template"

def openshiftConfigSecretEtcdMetricClientFileName : String :=
  "openshift-config-secret-etcd-metric-client.yaml.template"

/-- The struct `EtcdCAConfigMap`. -/
structure EtcdCAConfigMap where
  FileList : List asset.File
  deriving DecidableEq, Repr

/-- The method `Files` of `EtcdCAConfigMap`. -/
def EtcdCAConfigMap.Files (t : EtcdCAConfigMap) : List asset.File := t.FileList

/-- The method `Load` of `EtcdCAConfigMap`; `TemplateDir` is the constant
`content.TemplateDir`.  The value is the asset afterwards, `found` and the error. -/
def EtcdCAConfigMap.Load (TemplateDir : String) (t : EtcdCAConfigMap)
    (f : asset.FileFetcher) : EtcdCAConfigMap × Bool × Option GoError :=
  match f (filepath.Join TemplateDir etcdCAConfigMapFileName) with
  | .error err => if err.notExist then (t, false, none) else (t, false, some err)
  | .ok file => ({ FileList := [file] }, true, none)

/-- The struct `OpenshiftConfigSecretEtcdMetricClient`. -/
structure OpenshiftConfigSecretEtcdMetricClient where
  FileList : List asset.File
  deriving DecidableEq, Repr

/-- The method `Files` of `OpenshiftConfigSecretEtcdMetricClient`. -/
def OpenshiftConfigSecretEtcdMetricClient.Files
    (t : OpenshiftConfigSecretEtcdMetricClient) : List asset.File := t.FileList

/-- The method `Load` of `OpenshiftConfigSecretEtcdMetricClient`; `TemplateDir` is the
constant `content.TemplateDir`. -/
def OpenshiftConfigSecretEtcdMetricClient.Load (TemplateDir : String)
    (t : OpenshiftConfigSecretEtcdMetricClient) (f : asset.FileFetcher) :
    OpenshiftConfigSecretEtcdMetricClient × Bool × Option GoError :=
  match f (filepath.Join TemplateDir openshiftConfigSecretEtcdMetricClientFileName) with
  | .error err => if err.notExist then (t, false, none) else (t, false, some err)
  | .ok file => ({ FileList := [file] }, true, none)

end bootkube

/-! ## Concrete inputs -/

namespace Example

/-- A template engine whose templates are their own text: parsing and executing always
succeed and give the text back. -/
def engine : TemplateEngine String Unit :=
  ⟨fun _ text => .ok text, fun tmpl _ => .ok tmpl⟩

/-- A tree opened at "bootstrap/files": usr/bin/foo.sh, usr/bin/motd, etc/motd and
etc/hosts. -/
def filesTree : FsNode :=
  .dir "files" none
    [.dir "usr" none [.dir "bin" none [.file "foo.sh" (.ok "x"), .file "motd" (.ok "m")]],
     .dir "etc" none [.file "motd" (.ok "hello"), .file "hosts" (.ok "h")]]

/-- A units directory: a unit file that is a template, a drop-in directory with two
fragments, a directory that is not a drop-in directory, a plain unit file, and an empty
drop-in directory of an enabled unit. -/
def unitsTree : FsNode :=
  .dir "units" none
    [.file "kubelet.service.template" (.ok "k"),
     .dir "x.service.d" none
       [.file "10-a.conf" (.ok "a"), .file "20-b.conf.template" (.ok "b")],
     .dir "internal" none [.file "zz" (.ok "z")],
     .file "other.service" (.ok "o"),
     .dir "keepalived.service.d" none []]

/-- The units `addSystemdUnits` appends for `unitsTree`. -/
def unitsTreeUnits : List igntypes.Unit :=
  [⟨"kubelet.service", "k", [], some true⟩,
   ⟨"x.service", "", [⟨"10-a.conf", "a"⟩, ⟨"20-b.conf", "b"⟩], none⟩,
   ⟨"other.service", "o", [], none⟩,
   ⟨"keepalived.service", "", [], some true⟩]

/-- The files of the assets in `parents`. -/
def parentsFiles (a : AssetId) : List asset.File :=
  if a = .Manifests then [⟨"manifests/a.yaml", "A"⟩]
  else if a = .Kubelet then [⟨"auth/kubeconfig-kubelet", "K"⟩]
  else if a = .JournalCertKey then [⟨"tls/journal.crt", "JC"⟩, ⟨"tls/journal.key", "JK"⟩]
  else []

/-- A store that holds the declared dependencies of the bootstrap asset and nothing
else; a manifest, the kubelet kubeconfig, the root CA and the journal key pair have
files. -/
def parents : asset.Parents :=
  { Files := fun a => if a ∈ bootstrap.Dependencies then some (parentsFiles a) else none,
    RootCA := some ⟨⟨"tls/root-ca.crt", "C"⟩, "C", "SECRET"⟩,
    InstallConfig := some ⟨⟨some 3⟩, "example.com", "ps", "key"⟩ }

/-- A store in which the certificate file of the root CA is called by a name that climbs
out of its directory, and no asset has other files. -/
def escapingParents : asset.Parents :=
  { Files := fun _ => some [],
    RootCA := some ⟨⟨"../root-ca.crt", "C"⟩, "C", "SECRET"⟩,
    InstallConfig := some ⟨⟨some 3⟩, "example.com", "ps", "key"⟩ }

/-- The store `parents` without the kubelet kubeconfig. -/
def parentsWithoutKubelet : asset.Parents :=
  { parents with Files := fun a => if a = .Kubelet then none else parents.Files a }

/-- A template engine for the bootstrap template data whose templates are their own
text. -/
def templateEngine : TemplateEngine String bootstrap.bootstrapTemplateData :=
  ⟨fun _ text => .ok text, fun tmpl _ => .ok tmpl⟩

/-- Embedded assets with `filesTree` at bootstrap/files and `unitsTree` at
bootstrap/systemd/units. -/
def assets (uri : String) : FsNode :=
  if uri = "bootstrap/files" then filesTree
  else if uri = "bootstrap/systemd/units" then unitsTree
  else .broken uri (errorsNew "file does not exist")

/-- A serialisation that always gives the same text. -/
def marshal : igntypes.Config → Except GoError String := fun _ => .ok "{}"

/-- The limit of a runtime that allocates at most 2^48 bytes: 2^44 strings. -/
def maxStrings : Nat := 17592186044416

/-- An environment in which the release image is overridden. -/
def overrideEnv (name : String) : Option String :=
  if name = "OPENSHIFT_INSTALL_RELEASE_IMAGE_OVERRIDE" then some "custom/image:tag" else none

/-- An install config with three control-plane replicas in the domain example.com. -/
def installConfig : types.InstallConfig := ⟨⟨some 3⟩, "example.com", "ps", "key"⟩

/-- A bundle with nothing in it yet. -/
def emptyConfig : igntypes.Config := ⟨"2.2.0", [], [], []⟩

/-- The files the walk over `filesTree` appends. -/
def filesTreeFiles : List igntypes.File :=
  [⟨"/usr/bin/foo.sh", "root", 0o555, "x", false⟩,
   ⟨"/usr/bin/motd", "root", 0o555, "m", false⟩,
   ⟨"/etc/motd", "root", 0o644, "hello", true⟩,
   ⟨"/etc/hosts", "root", 0o600, "h", false⟩]

end Example

/-! # Properties -/

section Destroy

open types destroy

theorem Platform_of_onlyPopulated {M : Type} (cpm : ClusterPlatformMetadata M) (v : Variant)
    (h : cpm.OnlyPopulated v) : ClusterPlatformMetadata.Platform (some cpm) = v.name := by
  obtain ⟨ha, hl, ho, hb⟩ := h
  cases v <;> simp_all [ClusterPlatformMetadata.Platform, Variant.name]

theorem Platform_cases {M : Type} (cpm : ClusterPlatformMetadata M) :
    (ClusterPlatformMetadata.Platform (some cpm) = "" ∧ cpm.NonePopulated) ∨
    ClusterPlatformMetadata.Platform (some cpm) = "aws" ∨
    ClusterPlatformMetadata.Platform (some cpm) = "libvirt" ∨
    ClusterPlatformMetadata.Platform (some cpm) = "openstack" ∨
    ClusterPlatformMetadata.Platform (some cpm) = "baremetal" := by
  unfold ClusterPlatformMetadata.Platform ClusterPlatformMetadata.NonePopulated
  rcases cpm with ⟨a, o, l, b⟩
  cases a <;> cases l <;> cases o <;> cases b <;> simp

theorem Platform_eq_empty_iff {M : Type} (cpm : ClusterPlatformMetadata M) :
    ClusterPlatformMetadata.Platform (some cpm) = "" ↔ cpm.NonePopulated := by
  unfold ClusterPlatformMetadata.Platform ClusterPlatformMetadata.NonePopulated
  rcases cpm with ⟨a, o, l, b⟩
  cases a <;> cases l <;> cases o <;> cases b <;> simp

theorem errNotRegistered_of_platform {M : Type} (cpm : ClusterPlatformMetadata M) :
    errNotRegistered (ClusterPlatformMetadata.Platform (some cpm)) ≠ errNoPlatform ∧
    (errNotRegistered (ClusterPlatformMetadata.Platform (some cpm))).msg =
      "no destroyers registered for \"" ++ ClusterPlatformMetadata.Platform (some cpm)
        ++ "\"" := by
  rcases Platform_cases cpm with h | h | h | h | h
  · rw [h.1]; exact ⟨by decide, by decide⟩
  all_goals rw [h]; exact ⟨by decide, by decide⟩

/-- C1: when exactly one platform variant `v` of the loaded metadata is populated and the
registry has a constructor under the name of `v`, `New` takes the `creator(logger,
metadata)` return with that constructor, hands its `(Destroyer, error)` pair to the caller
unchanged, and looks at no other entry of the registry: any registry with the same entry
under that name gives the same return. -/
theorem New_dispatches_populated_variant {L M D : Type}
    (LoadMetadata : String → Except GoError (ClusterMetadata M))
    (registry : Registry L M D) (logger : L) (rootDir : String)
    (metadata : ClusterMetadata M) (v : Variant) (creator : NewFunc L M D)
    (hload : LoadMetadata rootDir = .ok metadata)
    (hv : metadata.toClusterPlatformMetadata.OnlyPopulated v)
    (hreg : registry v.name = some creator) :
    New LoadMetadata registry logger rootDir = .created (creator logger metadata) ∧
    (New LoadMetadata registry logger rootDir).values = creator logger metadata ∧
    ∀ registry' : Registry L M D, registry' v.name = registry v.name →
      New LoadMetadata registry' logger rootDir = New LoadMetadata registry logger rootDir := by
  have hp := Platform_of_onlyPopulated _ v hv
  have hne : v.name ≠ "" := by cases v <;> decide
  refine ⟨?_, ?_, ?_⟩
  · simp [New, hload, hp, hne, hreg]
  · simp [New, hload, hp, hne, hreg, NewReturn.values]
  · intro registry' h'
    simp [New, hload, hp, hne, hreg, h']

/-- C1 at metadata with only the OpenStack variant populated: the registry holds a
constructor under each of two names, and the one under "openstack" is the one called. -/
theorem New_dispatches_populated_variant_witness :
    New (L := Unit) (M := Nat) (D := String)
        (fun _ => .ok ⟨⟨none, some 7, none, none⟩, "c", "id"⟩)
        (fun n => if n = "openstack" then some (fun _ _ => (some "os", none))
          else if n = "aws" then some (fun _ _ => (some "aws", none)) else none)
        () "dir" = .created (some "os", none) ∧
    (New (L := Unit) (M := Nat) (D := String)
        (fun _ => .ok ⟨⟨none, some 7, none, none⟩, "c", "id"⟩)
        (fun n => if n = "openstack" then some (fun _ _ => (some "os", none))
          else if n = "aws" then some (fun _ _ => (some "aws", none)) else none)
        () "dir").values = (some "os", none) ∧
    ∀ registry' : Registry Unit Nat String,
      registry' "openstack" = some (fun _ _ => (some "os", none)) →
      New (fun _ => .ok ⟨⟨none, some 7, none, none⟩, "c", "id"⟩) registry' () "dir" =
      New (L := Unit) (M := Nat) (D := String)
        (fun _ => .ok ⟨⟨none, some 7, none, none⟩, "c", "id"⟩)
        (fun n => if n = "openstack" then some (fun _ _ => (some "os", none))
          else if n = "aws" then some (fun _ _ => (some "aws", none)) else none)
        () "dir" :=
  New_dispatches_populated_variant (L := Unit) (M := Nat) (D := String)
    (fun _ => .ok ⟨⟨none, some 7, none, none⟩, "c", "id"⟩)
    (fun n => if n = "openstack" then some (fun _ _ => (some "os", none))
      else if n = "aws" then some (fun _ _ => (some "aws", none)) else none)
    () "dir" ⟨⟨none, some 7, none, none⟩, "c", "id"⟩ .OpenStack
    (fun _ _ => (some "os", none)) rfl (by simp [ClusterPlatformMetadata.OnlyPopulated])
    (by simp [Variant.name])

/-- C2: for loaded metadata, `New` returns without calling a constructor in exactly two
situations.  With no variant populated (`Platform()` is the empty string) it takes the
`noPlatform` return, whose error is "no platform configured in metadata", whatever the
registry holds.  With a variant populated and no registry entry under its name it takes
the `notRegistered` return, whose error is a different one and carries the platform name
in quotes.  With a variant populated and a constructor registered under its name it
takes neither: it returns what the constructor gives. -/
theorem New_failure_returns {L M D : Type}
    (LoadMetadata : String → Except GoError (ClusterMetadata M))
    (registry : Registry L M D) (logger : L) (rootDir : String)
    (metadata : ClusterMetadata M)
    (hload : LoadMetadata rootDir = .ok metadata) :
    (ClusterPlatformMetadata.Platform (some metadata.toClusterPlatformMetadata) = "" ↔
      metadata.toClusterPlatformMetadata.NonePopulated) ∧
    (ClusterPlatformMetadata.Platform (some metadata.toClusterPlatformMetadata) = "" →
      New LoadMetadata registry logger rootDir = .noPlatform) ∧
    (NewReturn.noPlatform : NewReturn D).values =
      (none, some ⟨"no platform configured in metadata", false⟩) ∧
    (ClusterPlatformMetadata.Platform (some metadata.toClusterPlatformMetadata) ≠ "" →
      registry (ClusterPlatformMetadata.Platform (some metadata.toClusterPlatformMetadata))
        = none →
      New LoadMetadata registry logger rootDir = .notRegistered
        (ClusterPlatformMetadata.Platform (some metadata.toClusterPlatformMetadata)) ∧
      (New LoadMetadata registry logger rootDir).values = (none, some (errNotRegistered
        (ClusterPlatformMetadata.Platform (some metadata.toClusterPlatformMetadata)))) ∧
      errNotRegistered
        (ClusterPlatformMetadata.Platform (some metadata.toClusterPlatformMetadata))
        ≠ errNoPlatform ∧
      (errNotRegistered
        (ClusterPlatformMetadata.Platform (some metadata.toClusterPlatformMetadata))).msg =
        "no destroyers registered for \"" ++
          ClusterPlatformMetadata.Platform (some metadata.toClusterPlatformMetadata)
          ++ "\"") ∧
    (ClusterPlatformMetadata.Platform (some metadata.toClusterPlatformMetadata) ≠ "" →
      ∀ creator : NewFunc L M D,
        registry (ClusterPlatformMetadata.Platform (some metadata.toClusterPlatformMetadata))
          = some creator →
        New LoadMetadata registry logger rootDir = .created (creator logger metadata)) ∧
    ((New LoadMetadata registry logger rootDir = .noPlatform ∨
        ∃ p, New LoadMetadata registry logger rootDir = .notRegistered p) ↔
      (ClusterPlatformMetadata.Platform (some metadata.toClusterPlatformMetadata) = "" ∨
        registry (ClusterPlatformMetadata.Platform (some metadata.toClusterPlatformMetadata))
          = none)) := by
  refine ⟨Platform_eq_empty_iff _, ?_, rfl, ?_, ?_, ?_⟩
  · intro h
    simp [New, hload, h]
  · intro h hreg
    refine ⟨?_, ?_, (errNotRegistered_of_platform _).1, (errNotRegistered_of_platform _).2⟩
    · simp [New, hload, h, hreg]
    · simp [New, hload, h, hreg, NewReturn.values]
  · intro h creator hreg
    simp [New, hload, h, hreg]
  · by_cases h : ClusterPlatformMetadata.Platform (some metadata.toClusterPlatformMetadata) = ""
    · simp [New, hload, h]
    · cases hreg : registry
        (ClusterPlatformMetadata.Platform (some metadata.toClusterPlatformMetadata)) with
      | none => simp [New, hload, h, hreg]
      | some creator => simp [New, hload, h, hreg]

/-- C2 at metadata with only the Libvirt variant populated and a registry that holds a
constructor for "aws" alone. -/
theorem New_failure_returns_witness :
    New (L := Unit) (M := Nat) (D := String)
        (fun _ => .ok ⟨⟨none, none, some 1, none⟩, "c", "id"⟩)
        (fun n => if n = "aws" then some (fun _ _ => (some "aws", none)) else none)
        () "dir" = .notRegistered "libvirt" ∧
    (NewReturn.notRegistered "libvirt" : NewReturn String).values =
      (none, some ⟨"no destroyers registered for \"libvirt\"", false⟩) :=
  ⟨((New_failure_returns (L := Unit) (M := Nat) (D := String)
      (fun _ => .ok ⟨⟨none, none, some 1, none⟩, "c", "id"⟩)
      (fun n => if n = "aws" then some (fun _ _ => (some "aws", none)) else none)
      () "dir" ⟨⟨none, none, some 1, none⟩, "c", "id"⟩ rfl).2.2.2.1
      (by decide) (by simp [ClusterPlatformMetadata.Platform])).1, by decide⟩

end Destroy

section TemplateData

open bootstrap

theorem strings_Join_go (sep : String) (rest : List String) (a : String) :
    rest.foldl (fun b s => b ++ sep ++ s) a = String.intercalate.go a sep rest := by
  induction rest generalizing a with
  | nil => rfl
  | cons x xs ih => simp [String.intercalate.go, ih]

theorem strings_Join_eq_intercalate (l : List String) (sep : String) :
    strings.Join l sep = sep.intercalate l := by
  cases l with
  | nil => rfl
  | cons a rest =>
    cases rest with
    | nil => rfl
    | cons b rest =>
      simp [strings.Join, String.intercalate, strings_Join_go, String.intercalate.go]

theorem fill_range (f : Nat → String) (n k : Nat) (hk : k ≤ n) :
    (List.range k).foldl (fun s i => s.set i (f i)) (List.replicate n "") =
      (List.range k).map f ++ List.replicate (n - k) "" := by
  induction k with
  | zero => simp
  | succ k ih =>
    rw [List.range_succ, List.foldl_append, ih (by omega)]
    have h : n - k = (n - (k + 1)) + 1 := by omega
    rw [h, List.replicate_succ]
    simp [List.set_append]

theorem fill_range_all (f : Nat → String) (n : Nat) :
    (List.range n).foldl (fun s i => s.set i (f i)) (List.replicate n "") =
      (List.range n).map f := by
  simpa using fill_range f n n le_rfl

theorem makesliceLimit_lt (maxStrings : Nat) :
    makesliceLimit maxStrings < 1152921504606846976 := by
  unfold makesliceLimit
  omega

/-- What `getTemplateData` returns for a replica count within the limit. -/
theorem getTemplateData_returns (maxStrings : Nat) (env : String → Option String) (n : Nat)
    (d ps key : String) (h : n ≤ makesliceLimit maxStrings) :
    getTemplateData maxStrings env ⟨⟨some (n : Int)⟩, d, ps, key⟩ = .returned
      ({ EtcdCertSignerImage := etcdCertSignerImage,
         PullSecret := ps,
         ReleaseImage :=
           (match env "OPENSHIFT_INSTALL_RELEASE_IMAGE_OVERRIDE" with
            | some ri => if ri ≠ "" then some ri else none
            | none => none).getD defaultReleaseImage,
         EtcdCluster := ",".intercalate ((List.range n).map fun i => etcdEndpoint i d) },
       none,
       if (match env "OPENSHIFT_INSTALL_RELEASE_IMAGE_OVERRIDE" with
            | some ri => if ri ≠ "" then some ri else none
            | none => none).isSome then [overrideWarning] else []) := by
  simp only [getTemplateData]
  rw [if_neg (by omega)]
  simp only [Int.toNat_ofNat]
  rw [fill_range_all, strings_Join_eq_intercalate]

/-- A call of `getTemplateData` that returns had a replica count within the limit. -/
theorem getTemplateData_returned (maxStrings : Nat) (env : String → Option String)
    (ic : types.InstallConfig) (td : bootstrapTemplateData) (err : Option GoError)
    (warnings : List String)
    (h : getTemplateData maxStrings env ic = .returned (td, err, warnings)) :
    ∃ n : Nat, n ≤ makesliceLimit maxStrings ∧
      ic = ⟨⟨some (n : Int)⟩, ic.ClusterDomain, ic.PullSecret, ic.SSHKey⟩ := by
  unfold getTemplateData at h
  obtain ⟨⟨replicas⟩, d, ps, key⟩ := ic
  cases replicas with
  | none => simp at h
  | some r =>
    have hlim : ¬ (r < 0 ∨ (makesliceLimit maxStrings : Int) < r) := by
      intro hlim
      simp [hlim] at h
    refine ⟨r.toNat, by omega, ?_⟩
    have : ((r.toNat : Nat) : Int) = r := by omega
    simp [this]

/-- C5, as amended: for every replica count `n` from 0 up to the largest slice length the
runtime makes (`makesliceLimit`), and every cluster domain `d`, `getTemplateData` returns, and
`EtcdCluster` is the join by "," of the `n` texts "https://etcd-i.d:2379" for
i = 0, ..., n-1 in increasing order (`i` in decimal); it is empty for `n = 0`, and for
`n = 3` and `d = example.com` it is the three endpoints of etcd-0, etcd-1 and etcd-2.
Every call that returns is one of these. -/
theorem getTemplateData_etcdCluster :
    (∀ (maxStrings : Nat) (env : String → Option String) (n : Nat) (d ps key : String),
      n ≤ makesliceLimit maxStrings →
      ∃ td warnings, getTemplateData maxStrings env ⟨⟨some (n : Int)⟩, d, ps, key⟩
          = .returned (td, none, warnings) ∧
        td.EtcdCluster = ",".intercalate
          ((List.range n).map fun i =>
            "https://etcd-" ++ Nat.repr i ++ "." ++ d ++ ":2379")) ∧
    (∀ (maxStrings : Nat) (env : String → Option String) (d ps key : String),
      ∃ td warnings, getTemplateData maxStrings env ⟨⟨some 0⟩, d, ps, key⟩
          = .returned (td, none, warnings) ∧ td.EtcdCluster = "") ∧
    (∀ (maxStrings : Nat) (env : String → Option String) (ps key : String),
      3 ≤ makesliceLimit maxStrings →
      ∃ td warnings, getTemplateData maxStrings env ⟨⟨some 3⟩, "example.com", ps, key⟩
          = .returned (td, none, warnings) ∧
        td.EtcdCluster = "https://etcd-0.example.com:2379," ++
          "https://etcd-1.example.com:2379,https://etcd-2.example.com:2379") ∧
    (∀ (maxStrings : Nat) (env : String → Option String) (ic : types.InstallConfig)
      (td : bootstrapTemplateData) (err : Option GoError) (warnings : List String),
      getTemplateData maxStrings env ic = .returned (td, err, warnings) →
      ∃ n : Nat, n ≤ makesliceLimit maxStrings ∧ ic.ControlPlane.Replicas = some (n : Int) ∧
        td.EtcdCluster = ",".intercalate
          ((List.range n).map fun i =>
            "https://etcd-" ++ Nat.repr i ++ "." ++ ic.ClusterDomain ++ ":2379")) := by
  refine ⟨?_, ?_, ?_, ?_⟩
  · intro maxStrings env n d ps key h
    exact ⟨_, _, getTemplateData_returns maxStrings env n d ps key h, rfl⟩
  · intro maxStrings env d ps key
    exact ⟨_, _, getTemplateData_returns maxStrings env 0 d ps key (Nat.zero_le _), rfl⟩
  · intro maxStrings env ps key h
    exact ⟨_, _, getTemplateData_returns maxStrings env 3 "example.com" ps key h, rfl⟩
  · intro maxStrings env ic td err warnings h
    obtain ⟨n, hn, hic⟩ := getTemplateData_returned maxStrings env ic td err warnings h
    refine ⟨n, hn, by rw [hic], ?_⟩
    rw [hic, getTemplateData_returns maxStrings env n _ _ _ hn] at h
    simp only [Outcome.returned.injEq, Prod.mk.injEq] at h
    rw [← h.1]
    rfl

/-- C5, as amended, at three replicas in the domain example.com. -/
theorem getTemplateData_etcdCluster_witness :
    ∃ td warnings, getTemplateData Example.maxStrings (fun _ => none)
        ⟨⟨some 3⟩, "example.com", "ps", "key"⟩ = .returned (td, none, warnings) ∧
      td.EtcdCluster = "https://etcd-0.example.com:2379," ++
        "https://etcd-1.example.com:2379,https://etcd-2.example.com:2379" :=
  getTemplateData_etcdCluster.2.2.1 Example.maxStrings (fun _ => none) "ps" "key"
    (by decide)

/-- C5 as stated fails at the replica count 2^62, which is not negative: the slice of
endpoints cannot be made, `getTemplateData` panics and sets no `EtcdCluster`; this is
so whatever the memory of the machine. -/
theorem getTemplateData_etcdCluster_counterexample :
    (0 : Int) ≤ 4611686018427387904 ∧
    getTemplateData Example.maxStrings (fun _ => none)
        ⟨⟨some 4611686018427387904⟩, "example.com", "ps", "key"⟩ =
      .panicked (errorsNew "runtime error: makeslice: len out of range") ∧
    (¬ ∃ td warnings, getTemplateData Example.maxStrings (fun _ => none)
        ⟨⟨some 4611686018427387904⟩, "example.com", "ps", "key"⟩ =
      .returned (td, none, warnings)) ∧
    (∀ maxStrings : Nat, getTemplateData maxStrings (fun _ => none)
        ⟨⟨some 4611686018427387904⟩, "example.com", "ps", "key"⟩ =
      .panicked (errorsNew "runtime error: makeslice: len out of range")) := by
  have h : ∀ maxStrings : Nat, getTemplateData maxStrings (fun _ => none)
        ⟨⟨some 4611686018427387904⟩, "example.com", "ps", "key"⟩ =
      .panicked (errorsNew "runtime error: makeslice: len out of range") := by
    intro maxStrings
    have hlt := makesliceLimit_lt maxStrings
    simp only [getTemplateData]
    rw [if_pos (by omega)]
  refine ⟨by decide, h _, ?_, h⟩
  rintro ⟨td, warnings, h'⟩
  rw [h] at h'
  cases h'

/-- C8: in every call of `getTemplateData` that returns, the release image is the value
of `OPENSHIFT_INSTALL_RELEASE_IMAGE_OVERRIDE` and one warning is logged when that
variable is set and not empty; the release image is the compiled-in default and nothing
is logged when the variable is unset or empty.  In both cases `EtcdCertSignerImage` is
the signer image constant and `PullSecret` is the install config's pull secret.  The
call returns for every replica count from 0 up to the largest slice length the runtime
makes. -/
theorem getTemplateData_releaseImage :
    (∀ (maxStrings : Nat) (env : String → Option String) (ic : types.InstallConfig)
      (td : bootstrapTemplateData) (err : Option GoError) (warnings : List String),
      getTemplateData maxStrings env ic = .returned (td, err, warnings) →
      (∀ ri, env "OPENSHIFT_INSTALL_RELEASE_IMAGE_OVERRIDE" = some ri → ri ≠ "" →
        td.ReleaseImage = ri ∧ warnings = [overrideWarning]) ∧
      (env "OPENSHIFT_INSTALL_RELEASE_IMAGE_OVERRIDE" = none ∨
          env "OPENSHIFT_INSTALL_RELEASE_IMAGE_OVERRIDE" = some "" →
        td.ReleaseImage = "registry.svc.ci.openshift.org/openshift/origin-release:v4.0" ∧
        warnings = []) ∧
      (warnings ≠ [] ↔
        ∃ ri, env "OPENSHIFT_INSTALL_RELEASE_IMAGE_OVERRIDE" = some ri ∧ ri ≠ "") ∧
      td.EtcdCertSignerImage =
        "quay.io/coreos/kube-etcd-signer-server:678cc8e6841e2121ebfdb6e2db568fce290b67d6" ∧
      td.PullSecret = ic.PullSecret) ∧
    (∀ (maxStrings : Nat) (env : String → Option String) (n : Nat) (d ps key : String),
      n ≤ makesliceLimit maxStrings →
      ∃ td warnings, getTemplateData maxStrings env ⟨⟨some (n : Int)⟩, d, ps, key⟩
        = .returned (td, none, warnings)) := by
  refine ⟨?_, ?_⟩
  · intro maxStrings env ic td err warnings h
    obtain ⟨n, hn, hic⟩ := getTemplateData_returned maxStrings env ic td err warnings h
    rw [hic, getTemplateData_returns maxStrings env n _ _ _ hn] at h
    simp only [Outcome.returned.injEq, Prod.mk.injEq] at h
    obtain ⟨htd, -, hw⟩ := h
    rw [← htd, ← hw]
    refine ⟨?_, ?_, ?_, rfl, rfl⟩
    · intro ri h hne
      simp [h, hne]
    · rintro (h | h) <;> simp [h, defaultReleaseImage]
    · cases h : env "OPENSHIFT_INSTALL_RELEASE_IMAGE_OVERRIDE" with
      | none => simp
      | some ri => by_cases hne : ri = "" <;> simp [hne]
  · intro maxStrings env n d ps key h
    exact ⟨_, _, getTemplateData_returns maxStrings env n d ps key h⟩

theorem overrideEnv_run :
    getTemplateData Example.maxStrings Example.overrideEnv Example.installConfig =
      .returned
        (⟨"quay.io/coreos/kube-etcd-signer-server:678cc8e6841e2121ebfdb6e2db568fce290b67d6",
          "https://etcd-0.example.com:2379,https://etcd-1.example.com:2379," ++
            "https://etcd-2.example.com:2379",
          "ps", "custom/image:tag"⟩, none,
         ["Found override for ReleaseImage. Please be warned, this is not advised"]) := by
  decide

/-- C8 with the variable set to custom/image:tag: the call returns, the release image is
custom/image:tag, and the warning is logged. -/
theorem getTemplateData_releaseImage_witness :
    getTemplateData Example.maxStrings Example.overrideEnv Example.installConfig =
      .returned
        (⟨"quay.io/coreos/kube-etcd-signer-server:678cc8e6841e2121ebfdb6e2db568fce290b67d6",
          "https://etcd-0.example.com:2379,https://etcd-1.example.com:2379," ++
            "https://etcd-2.example.com:2379",
          "ps", "custom/image:tag"⟩, none,
         ["Found override for ReleaseImage. Please be warned, this is not advised"]) ∧
    ("custom/image:tag" = "custom/image:tag" ∧
      ["Found override for ReleaseImage. Please be warned, this is not advised"]
        = [overrideWarning]) :=
  ⟨overrideEnv_run,
   (getTemplateData_releaseImage.1 Example.maxStrings Example.overrideEnv
      Example.installConfig _ none _ overrideEnv_run).1 "custom/image:tag" (by decide)
      (by decide)⟩

end TemplateData

section ReadFile

open bootstrap

theorem extLoop_eq_cons (r acc res : List Char) (c : Char)
    (h : filepath.extLoop r acc = c :: res) :
    ∃ pre post, r = pre ++ '.' :: post ∧ c :: res = '.' :: (pre.reverse ++ acc) := by
  induction r generalizing acc with
  | nil => simp [filepath.extLoop] at h
  | cons x xs ih =>
    unfold filepath.extLoop at h
    split_ifs at h with h1 h2
    · exact ⟨[], xs, by simp [h2], by simp [← h]⟩
    · obtain ⟨pre, post, hr, hres⟩ := ih _ h
      exact ⟨x :: pre, post, by simp [hr], by simp [hres]⟩

theorem Ext_eq_template_iff (name : String) :
    filepath.Ext name = ".template" ↔ strings.HasSuffix name ".template" = true := by
  unfold filepath.Ext strings.HasSuffix
  rw [List.isSuffixOf_iff_suffix]
  constructor
  · intro h
    have h' : filepath.extLoop name.data.reverse [] = ".template".data := by
      simpa using congrArg String.data h
    obtain ⟨pre, post, hr, hres⟩ := extLoop_eq_cons _ _ _ _ h'
    have hpre : pre = "etalpmet".data := by
      have : pre.reverse = "template".data := by simpa using hres.symm
      simpa using congrArg List.reverse this
    refine ⟨post.reverse, ?_⟩
    have := congrArg List.reverse hr
    simp [hpre] at this
    simp [this]
  · rintro ⟨t, ht⟩
    rw [← ht]
    simp [filepath.extLoop]

theorem TrimSuffix_append (s suffix : String) (h : strings.HasSuffix s suffix = true) :
    strings.TrimSuffix s suffix ++ suffix = s := by
  unfold strings.TrimSuffix
  rw [if_pos h]
  unfold strings.HasSuffix at h
  rw [List.isSuffixOf_iff_suffix] at h
  obtain ⟨t, ht⟩ := h
  apply String.ext
  simp [← ht]

theorem TrimSuffix_of_not (s suffix : String) (h : strings.HasSuffix s suffix = false) :
    strings.TrimSuffix s suffix = s := by
  simp [strings.TrimSuffix, h]

/-- C6: `readFile` on readable content.  A name that does not end in ".template" comes
back unchanged with the same bytes and no error, whatever the template engine and the
context are.  A name that ends in ".template" comes back, in every return, with that one
trailing ".template" removed (the returned name followed by ".template" is the name
given; "a.template.template" gives "a.template"): with an error and no rendered output
when the content does not parse, with the rendered text when it parses and executes; a
failed execution panics. -/
theorem readFile_template_marker {T C : Type} (eng : TemplateEngine T C)
    (name data : String) (context : C) :
    (strings.HasSuffix name ".template" = false →
      ∀ (T' C' : Type) (eng' : TemplateEngine T' C') (context' : C'),
        readFile eng' name (.ok data) context' = .returned (name, data, none)) ∧
    (strings.HasSuffix name ".template" = true →
      strings.TrimSuffix name ".template" ++ ".template" = name ∧
      (∀ err, eng.Parse (strings.TrimSuffix name ".template") data = .error err →
        readFile eng name (.ok data) context =
          .returned (strings.TrimSuffix name ".template", data, some err)) ∧
      (∀ tmpl text, eng.Parse (strings.TrimSuffix name ".template") data = .ok tmpl →
        eng.Execute tmpl context = .ok text →
        readFile eng name (.ok data) context =
          .returned (strings.TrimSuffix name ".template", text, none)) ∧
      (∀ tmpl err, eng.Parse (strings.TrimSuffix name ".template") data = .ok tmpl →
        eng.Execute tmpl context = .error err →
        readFile eng name (.ok data) context = .panicked err) ∧
      (∀ r, readFile eng name (.ok data) context = .returned r →
        r.1 = strings.TrimSuffix name ".template")) ∧
    strings.TrimSuffix "a.template.template" ".template" = "a.template" := by
  refine ⟨?_, ?_, by decide⟩
  · intro h T' C' eng' context'
    have hext : ¬ filepath.Ext name = ".template" := by
      rw [Ext_eq_template_iff, h]; simp
    simp [readFile, hext]
  · intro h
    have hext : filepath.Ext name = ".template" := (Ext_eq_template_iff name).2 h
    refine ⟨TrimSuffix_append _ _ h, ?_, ?_, ?_, ?_⟩
    · intro err hp
      simp [readFile, hext, hp]
    · intro tmpl text hp he
      simp [readFile, hext, hp, applyTemplateData, he]
    · intro tmpl err hp he
      simp [readFile, hext, hp, applyTemplateData, he]
    · intro r hr
      simp only [readFile, hext, if_true] at hr
      cases hp : eng.Parse (strings.TrimSuffix name ".template") data with
      | error err =>
        rw [hp] at hr
        simp at hr
        rw [← hr]
      | ok tmpl =>
        rw [hp] at hr
        cases he : eng.Execute tmpl context with
        | error err => simp [applyTemplateData, he] at hr
        | ok text =>
          simp [applyTemplateData, he] at hr
          rw [← hr]

end ReadFile


section Load

open bootstrap bootkube

/-- C7: the three `Load` methods.  Each returns `found = false` with no error exactly when
the fetcher's error for the asset's fixed file name is a not-exist error; hands any other
fetch error on with `found = false`; returns `found = true` exactly when the fetch
succeeds (for `Bootstrap`: and the content unmarshals), and then `Files()` is the fetched
file alone, as fetched; and leaves the asset as it was whenever `found = false`.  For
`Bootstrap`, fetched content that does not unmarshal gives the wrapped error with
`found = false`. -/
theorem Load_found_and_errors
    (Unmarshal : String → Except GoError igntypes.Config) (TemplateDir : String)
    (f : asset.FileFetcher) (a : Bootstrap) (t : EtcdCAConfigMap)
    (u : OpenshiftConfigSecretEtcdMetricClient) :
    -- Bootstrap
    (((a.Load Unmarshal f).2 = (false, none) ↔
        ∃ err, f "bootstrap.ign" = .error err ∧ err.notExist = true) ∧
      (∀ err, f "bootstrap.ign" = .error err → err.notExist = false →
        (a.Load Unmarshal f).2 = (false, some err)) ∧
      (∀ file err, f "bootstrap.ign" = .ok file → Unmarshal file.Data = .error err →
        (a.Load Unmarshal f).2 = (false, some (errorsWrap err "failed to unmarshal"))) ∧
      ((a.Load Unmarshal f).2.1 = true ↔
        ∃ file config, f "bootstrap.ign" = .ok file ∧ Unmarshal file.Data = .ok config) ∧
      (∀ file config, f "bootstrap.ign" = .ok file → Unmarshal file.Data = .ok config →
        (a.Load Unmarshal f).2 = (true, none) ∧ (a.Load Unmarshal f).1.Files = [file] ∧
        (a.Load Unmarshal f).1.Config = some config) ∧
      ((a.Load Unmarshal f).2.1 = false → (a.Load Unmarshal f).1 = a)) ∧
    -- EtcdCAConfigMap
    (((t.Load TemplateDir f).2 = (false, none) ↔
        ∃ err, f (filepath.Join TemplateDir "etcd-ca-bundle-configmap.yaml.template")
          = .error err ∧ err.notExist = true) ∧
      (∀ err, f (filepath.Join TemplateDir "etcd-ca-bundle-configmap.yaml.template")
          = .error err → err.notExist = false →
        (t.Load TemplateDir f).2 = (false, some err)) ∧
      ((t.Load TemplateDir f).2.1 = true ↔
        ∃ file, f (filepath.Join TemplateDir "etcd-ca-bundle-configmap.yaml.template")
          = .ok file) ∧
      (∀ file, f (filepath.Join TemplateDir "etcd-ca-bundle-configmap.yaml.template")
          = .ok file →
        (t.Load TemplateDir f).2 = (true, none) ∧ (t.Load TemplateDir f).1.Files = [file]) ∧
      ((t.Load TemplateDir f).2.1 = false → (t.Load TemplateDir f).1 = t)) ∧
    -- OpenshiftConfigSecretEtcdMetricClient
    (((u.Load TemplateDir f).2 = (false, none) ↔
        ∃ err, f (filepath.Join TemplateDir
          "openshift-config-secret-etcd-metric-client.yaml.template")
          = .error err ∧ err.notExist = true) ∧
      (∀ err, f (filepath.Join TemplateDir
          "openshift-config-secret-etcd-metric-client.yaml.template")
          = .error err → err.notExist = false →
        (u.Load TemplateDir f).2 = (false, some err)) ∧
      ((u.Load TemplateDir f).2.1 = true ↔
        ∃ file, f (filepath.Join TemplateDir
          "openshift-config-secret-etcd-metric-client.yaml.template") = .ok file) ∧
      (∀ file, f (filepath.Join TemplateDir
          "openshift-config-secret-etcd-metric-client.yaml.template") = .ok file →
        (u.Load TemplateDir f).2 = (true, none) ∧ (u.Load TemplateDir f).1.Files = [file]) ∧
      ((u.Load TemplateDir f).2.1 = false → (u.Load TemplateDir f).1 = u)) := by
  refine ⟨?_, ?_, ?_⟩
  · have hname : bootstrapIgnFilename = "bootstrap.ign" := rfl
    unfold Bootstrap.Load
    rw [hname]
    cases hf : f "bootstrap.ign" with
    | error err =>
      cases hn : err.notExist <;> simp [hn]
    | ok file =>
      cases hu : Unmarshal file.Data with
      | error err =>
        simp [hu, errorsWrap]
        refine ⟨?_, ?_⟩
        · rintro _ e rfl he
          rw [hu] at he
          cases he
          rfl
        · rintro _ c rfl hc
          rw [hu] at hc
          cases hc
      | ok config =>
        simp [hu, Bootstrap.Files]
        refine ⟨?_, ?_⟩
        · rintro _ e rfl he
          rw [hu] at he
          cases he
        · rintro _ c rfl hc
          rw [hu] at hc
          cases hc
          exact ⟨rfl, rfl⟩
  · have hname : etcdCAConfigMapFileName = "etcd-ca-bundle-configmap.yaml.template" := rfl
    unfold EtcdCAConfigMap.Load
    rw [hname]
    cases hf : f (filepath.Join TemplateDir "etcd-ca-bundle-configmap.yaml.template") with
    | error err =>
      cases hn : err.notExist <;> simp [hn]
    | ok file => simp [EtcdCAConfigMap.Files]
  · have hname : openshiftConfigSecretEtcdMetricClientFileName =
        "openshift-config-secret-etcd-metric-client.yaml.template" := rfl
    unfold OpenshiftConfigSecretEtcdMetricClient.Load
    rw [hname]
    cases hf : f (filepath.Join TemplateDir
        "openshift-config-secret-etcd-metric-client.yaml.template") with
    | error err =>
      cases hn : err.notExist <;> simp [hn]
    | ok file => simp [OpenshiftConfigSecretEtcdMetricClient.Files]

end Load


section PathLemmas

open path

theorem intercalate_cons_cons (x y : List Char) (l : List (List Char)) :
    ['/'].intercalate (x :: y :: l) = x ++ '/' :: ['/'].intercalate (y :: l) := by
  simp [List.intercalate, List.intersperse]

theorem intercalate_singleton (x : List Char) : ['/'].intercalate [x] = x := by
  simp [List.intercalate, List.intersperse]

theorem intercalate_append_singleton (l : List (List Char)) (hl : l ≠ []) (x : List Char) :
    ['/'].intercalate (l ++ [x]) = ['/'].intercalate l ++ '/' :: x := by
  induction l with
  | nil => exact absurd rfl hl
  | cons a l ih =>
    cases l with
    | nil => simp [intercalate_cons_cons, intercalate_singleton]
    | cons b l =>
      have := ih (by simp)
      simp only [List.cons_append] at this ⊢
      rw [intercalate_cons_cons, this, intercalate_cons_cons]
      simp

theorem foldl_cleanStep (rooted : Bool) (xs st : List (List Char))
    (hx : ∀ x ∈ xs, x = [] ∨ ElemChars x) :
    xs.foldl (path.cleanStep rooted) st = (xs.filter (fun x => !x.isEmpty)).reverse ++ st := by
  induction xs generalizing st with
  | nil => simp
  | cons x xs ih =>
    rw [List.foldl_cons, ih _ (fun y hy => hx y (List.mem_cons_of_mem _ hy))]
    rcases hx x (List.mem_cons_self _ _) with h | h
    · subst h
      simp [path.cleanStep]
    · obtain ⟨h1, _, h3, h4⟩ := h
      have : x.isEmpty = false := by cases x <;> simp_all
      simp [path.cleanStep, h1, h3, h4, this]

theorem cleanChars_intercalate (xs : List (List Char)) (hne : xs ≠ [])
    (hx : ∀ x ∈ xs, x = [] ∨ ElemChars x) :
    path.cleanChars (['/'].intercalate xs) =
      (let body := ['/'].intercalate (xs.filter (fun x => !x.isEmpty))
       let out := if (['/'].intercalate xs).head? = some '/' then '/' :: body else body
       if out = [] then ['.'] else out) := by
  have hs : (['/'].intercalate xs).splitOn '/' = xs := by
    refine List.splitOn_intercalate xs '/' ?_ hne
    intro l hl
    rcases hx l hl with h | h
    · simp [h]
    · exact h.2.1
  simp only [path.cleanChars, hs, foldl_cleanStep _ _ _ hx]
  simp

theorem filter_elemChars (xs : List (List Char)) (h : ∀ x ∈ xs, ElemChars x) :
    xs.filter (fun x => !x.isEmpty) = xs := by
  rw [List.filter_eq_self]
  intro x hx
  have := (h x hx).1
  cases x <;> simp_all

theorem cleanChars_rel (e : List Char) (rest : List (List Char)) (he : ElemChars e)
    (hr : ∀ x ∈ rest, x = [] ∨ ElemChars x) :
    cleanChars (['/'].intercalate (e :: rest)) =
      ['/'].intercalate (e :: rest.filter (fun x => !x.isEmpty)) := by
  rw [cleanChars_intercalate _ (by simp)]
  · obtain ⟨c, e', rfl⟩ : ∃ c e', e = c :: e' := by
      cases e with
      | nil => exact absurd rfl he.1
      | cons c e' => exact ⟨c, e', rfl⟩
    have hc : c ≠ '/' := fun h => he.2.1 (by simp [h])
    have hhead : ∀ l : List (List Char),
        ∃ t, ['/'].intercalate ((c :: e') :: l) = c :: t := by
      intro l
      cases l with
      | nil => exact ⟨e', by simp [intercalate_singleton]⟩
      | cons y l => exact ⟨_, by rw [intercalate_cons_cons]; rfl⟩
    obtain ⟨t1, h1⟩ := hhead rest
    obtain ⟨t2, h2⟩ := hhead (rest.filter (fun x => !x.isEmpty))
    simp only [List.filter_cons, List.isEmpty_cons, Bool.not_false, if_true, h1, h2,
      List.head?_cons]
    simp [hc]
  · intro x hx
    rcases List.mem_cons.1 hx with h | h
    · exact Or.inr (h ▸ he)
    · exact hr x h

theorem cleanChars_rooted (rest : List (List Char)) (hne : rest ≠ [])
    (hr : ∀ x ∈ rest, x = [] ∨ ElemChars x) :
    cleanChars (['/'].intercalate ([] :: rest)) =
      '/' :: ['/'].intercalate (rest.filter (fun x => !x.isEmpty)) := by
  rw [cleanChars_intercalate _ (by simp)]
  · obtain ⟨y, l, rfl⟩ : ∃ y l, rest = y :: l := by
      cases rest with
      | nil => exact absurd rfl hne
      | cons y l => exact ⟨y, l, rfl⟩
    rw [intercalate_cons_cons]
    simp
  · intro x hx
    rcases List.mem_cons.1 hx with h | h
    · exact Or.inl h
    · exact hr x h

theorem takeWhile_append_stop {p : Char → Bool} (a b : List Char) (x : Char)
    (ha : ∀ c ∈ a, p c = true) (hx : p x = false) :
    (a ++ x :: b).takeWhile p = a := by
  induction a with
  | nil => simp [List.takeWhile, hx]
  | cons c a ih =>
    have hc := ha c (List.mem_cons_self _ _)
    simp [List.takeWhile, hc, ih (fun d hd => ha d (List.mem_cons_of_mem _ hd))]

theorem dropWhile_append_stop {p : Char → Bool} (a b : List Char) (x : Char)
    (ha : ∀ c ∈ a, p c = true) (hx : p x = false) :
    (a ++ x :: b).dropWhile p = x :: b := by
  induction a with
  | nil => simp [List.dropWhile, hx]
  | cons c a ih =>
    have hc := ha c (List.mem_cons_self _ _)
    simp [List.dropWhile, hc, ih (fun d hd => ha d (List.mem_cons_of_mem _ hd))]

theorem takeWhile_all {p : Char → Bool} (a : List Char) (ha : ∀ c ∈ a, p c = true) :
    a.takeWhile p = a := by
  rw [List.takeWhile_eq_self_iff]
  exact ha

theorem dropWhile_head_stop {p : Char → Bool} (a : List Char) (x : Char)
    (hx : p x = false) : (x :: a).dropWhile p = x :: a := by
  simp [List.dropWhile, hx]

theorem reverse_elem_eq_cons (n : List Char) (hn : ElemChars n) :
    ∃ c m, n.reverse = c :: m ∧ c ≠ '/' := by
  obtain ⟨h1, h2, -, -⟩ := hn
  cases h : n.reverse with
  | nil => simp at h; exact absurd h h1
  | cons c m =>
    refine ⟨c, m, rfl, ?_⟩
    intro hc
    apply h2
    have : c ∈ n.reverse := by rw [h]; simp
    simpa [hc] using this

theorem baseChars_append (pre n : List Char) (hn : ElemChars n) :
    baseChars (pre ++ '/' :: n) = n := by
  obtain ⟨c, m, hrev, hc⟩ := reverse_elem_eq_cons n hn
  have hall : ∀ d ∈ n.reverse, (decide (d ≠ '/')) = true := by
    intro d hd
    have : d ∈ n := by simpa using hd
    simp only [decide_eq_true_eq]
    intro h
    exact hn.2.1 (h ▸ this)
  unfold baseChars
  rw [if_neg (by simp)]
  have hr : (pre ++ '/' :: n).reverse = n.reverse ++ '/' :: pre.reverse := by simp
  simp only [hr]
  have hd : (n.reverse ++ '/' :: pre.reverse).dropWhile (fun x => decide (x = '/'))
      = n.reverse ++ '/' :: pre.reverse := by
    rw [hrev]
    exact dropWhile_head_stop _ _ (by simp [hc])
  rw [hd, List.reverse_reverse, takeWhile_append_stop _ _ _ hall (by simp)]
  simp [hn.1]

theorem baseChars_elem (n : List Char) (hn : ElemChars n) : baseChars n = n := by
  obtain ⟨c, m, hrev, hc⟩ := reverse_elem_eq_cons n hn
  have hall : ∀ d ∈ n.reverse, (decide (d ≠ '/')) = true := by
    intro d hd
    have : d ∈ n := by simpa using hd
    simp only [decide_eq_true_eq]
    intro h
    exact hn.2.1 (h ▸ this)
  unfold baseChars
  rw [if_neg hn.1]
  have hd : n.reverse.dropWhile (fun x => decide (x = '/')) = n.reverse := by
    rw [hrev]
    exact dropWhile_head_stop _ _ (by simp [hc])
  simp only [hd, List.reverse_reverse]
  rw [takeWhile_all _ hall]
  simp [hn.1]

theorem splitDirChars_append (pre n : List Char) (hn : '/' ∉ n) :
    splitDirChars (pre ++ '/' :: n) = pre ++ ['/'] := by
  have hall : ∀ d ∈ n.reverse, (decide (d ≠ '/')) = true := by
    intro d hd
    have : d ∈ n := by simpa using hd
    simp only [decide_eq_true_eq]
    intro h
    exact hn (h ▸ this)
  unfold splitDirChars
  have hr : (pre ++ '/' :: n).reverse = n.reverse ++ '/' :: pre.reverse := by simp
  rw [hr, dropWhile_append_stop _ _ _ hall (by simp)]
  simp

theorem cleanChars_elems (xs : List (List Char)) (hne : xs ≠ [])
    (hx : ∀ x ∈ xs, ElemChars x) :
    cleanChars (['/'].intercalate xs) = ['/'].intercalate xs := by
  cases xs with
  | nil => exact absurd rfl hne
  | cons e rest =>
    have hrest : ∀ x ∈ rest, ElemChars x := fun x h => hx x (List.mem_cons_of_mem _ h)
    rw [cleanChars_rel e rest (hx e (List.mem_cons_self _ _)) (fun x h => Or.inr (hrest x h)),
      filter_elemChars rest hrest]

theorem cleanChars_rooted_elems (xs : List (List Char)) (hne : xs ≠ [])
    (hx : ∀ x ∈ xs, ElemChars x) :
    cleanChars ('/' :: ['/'].intercalate xs) = '/' :: ['/'].intercalate xs := by
  have h := cleanChars_rooted xs hne (fun x h => Or.inr (hx x h))
  rw [filter_elemChars xs hx] at h
  cases xs with
  | nil => exact absurd rfl hne
  | cons y l =>
    rw [intercalate_cons_cons] at h
    simpa using h

theorem joinElems_ne_empty (us : List String) (hus : us ≠ [])
    (hu : ∀ u ∈ us, IsElem u) : joinElems us ≠ "" := by
  cases us with
  | nil => exact absurd rfl hus
  | cons e rest =>
    have he : ElemChars e.data := hu e (List.mem_cons_self _ _)
    intro h
    have hd := congrArg String.data h
    simp only [joinElems, List.map_cons] at hd
    cases hrest : rest.map String.data with
    | nil =>
      rw [hrest, intercalate_singleton] at hd
      exact he.1 hd
    | cons y l =>
      rw [hrest, intercalate_cons_cons] at hd
      have : e.data = [] := by
        cases hed : e.data with
        | nil => rfl
        | cons c t => rw [hed] at hd; simp at hd
      exact he.1 this

theorem elemChars_of_map (us : List String) (hu : ∀ u ∈ us, IsElem u) :
    ∀ x ∈ us.map String.data, ElemChars x := by
  intro x hx
  obtain ⟨u, hu', rfl⟩ := List.mem_map.1 hx
  exact hu u hu'

theorem Join_joinElems (us : List String) (n : String) (hus : us ≠ [])
    (hu : ∀ u ∈ us, IsElem u) (hn : IsElem n) :
    path.Join (joinElems us) n = joinElems (us ++ [n]) := by
  unfold path.Join
  rw [if_neg (joinElems_ne_empty us hus hu)]
  unfold path.Clean
  apply String.ext
  have hmap : us.map String.data ≠ [] := by simpa using hus
  have hd : (joinElems us ++ "/" ++ n).data =
      ['/'].intercalate (us.map String.data ++ [n.data]) := by
    rw [intercalate_append_singleton _ hmap]
    simp [joinElems]
  simp only [hd]
  rw [cleanChars_elems _ (by simp)]
  · simp [joinElems]
  · intro x hx
    rcases List.mem_append.1 hx with h | h
    · exact elemChars_of_map us hu x h
    · simp at h
      exact h ▸ hn

theorem Base_joinElems (us : List String) (n : String) (hn : IsElem n) :
    path.Base (joinElems (us ++ [n])) = n := by
  unfold path.Base
  apply String.ext
  simp only [joinElems, List.map_append, List.map_cons, List.map_nil]
  cases hus : us.map String.data with
  | nil => simpa [intercalate_singleton] using baseChars_elem _ hn
  | cons y l =>
    rw [intercalate_append_singleton _ (by simp)]
    exact baseChars_append _ _ hn

theorem Dir_joinElems (us : List String) (n : String) (hus : us ≠ [])
    (hu : ∀ u ∈ us, IsElem u) (hn : IsElem n) :
    path.Dir (joinElems (us ++ [n])) = joinElems us := by
  unfold path.Dir
  apply String.ext
  have hmap : us.map String.data ≠ [] := by simpa using hus
  simp only [joinElems, List.map_append, List.map_cons, List.map_nil]
  rw [intercalate_append_singleton _ hmap, splitDirChars_append _ _ hn.2.1]
  have h2 : ['/'].intercalate (us.map String.data) ++ ['/'] =
      ['/'].intercalate (us.map String.data ++ [[]]) := by
    rw [intercalate_append_singleton _ hmap]
  rw [h2]
  obtain ⟨e, rest, hcons⟩ : ∃ e rest, us.map String.data = e :: rest := by
    cases h : us.map String.data with
    | nil => exact absurd h hmap
    | cons e rest => exact ⟨e, rest, rfl⟩
  have hall := elemChars_of_map us hu
  rw [hcons] at hall ⊢
  rw [List.cons_append, cleanChars_rel e (rest ++ [[]]) (hall e (List.mem_cons_self _ _))]
  · rw [List.filter_append, filter_elemChars rest
      (fun x h => hall x (List.mem_cons_of_mem _ h))]
    simp
  · intro x hx
    rcases List.mem_append.1 hx with h | h
    · exact Or.inr (hall x (List.mem_cons_of_mem _ h))
    · simp at h
      exact Or.inl h

end PathLemmas


section StorageFiles

open bootstrap path

mutual

theorem addStorageFiles_walk {T C : Type} (eng : TemplateEngine T C) (td : C) :
    ∀ (node : FsNode) (us : List String) (dir base : String)
      (cfg cfg' : igntypes.Config) (err : Option GoError),
      (∀ u ∈ us, IsElem u) → IsElem dir → node.wellNamed = true →
      addStorageFiles eng base (joinElems (us ++ [dir, node.Name])) node td cfg
        = .returned (cfg', err) →
      ∃ new processed rest,
        cfg' = { cfg with StorageFiles := cfg.StorageFiles ++ new } ∧
        node.sourceFiles dir = processed ++ rest ∧
        List.Forall₂ EmitsFor processed new ∧ (err = none → rest = [])
  | .broken name e, us, dir, base, cfg, cfg', err, _, _, _, h => by
    simp only [addStorageFiles, Outcome.returned.injEq, Prod.mk.injEq] at h
    exact ⟨[], [], [], by simp [← h.1], by simp [FsNode.sourceFiles], List.Forall₂.nil,
      fun _ => rfl⟩
  | .dir name (some e) children, us, dir, base, cfg, cfg', err, _, _, _, h => by
    simp only [addStorageFiles, Outcome.returned.injEq, Prod.mk.injEq] at h
    exact ⟨[], [], [], by simp [← h.1], by simp [FsNode.sourceFiles], List.Forall₂.nil,
      fun _ => rfl⟩
  | .dir name none children, us, dir, base, cfg, cfg', err, hus, hdir, hwn, h => by
    simp only [addStorageFiles, FsNode.Name] at h
    simp only [FsNode.wellNamed, Bool.and_eq_true, decide_eq_true_eq] at hwn
    simp only [FsNode.sourceFiles]
    exact addStorageFilesChildren_walk eng td children us dir name base cfg cfg' err
      hus hdir hwn.1 hwn.2 h
  | .file name contents, us, dir, base, cfg, cfg', err, hus, hdir, hwn, h => by
    simp only [FsNode.wellNamed, decide_eq_true_eq] at hwn
    simp only [addStorageFiles, FsNode.Name] at h
    have hbase : path.Base (joinElems (us ++ [dir, name])) = name := by
      have := Base_joinElems (us ++ [dir]) name hwn
      simpa using this
    have hdirn : path.Base (path.Dir (joinElems (us ++ [dir, name]))) = dir := by
      have h1 := Dir_joinElems (us ++ [dir]) name (by simp)
        (by
          intro u hu
          rcases List.mem_append.1 hu with h | h
          · exact hus u h
          · simp at h; exact h ▸ hdir) hwn
      have h2 : us ++ [dir, name] = (us ++ [dir]) ++ [name] := by simp
      rw [h2, h1]
      exact Base_joinElems us dir hdir
    simp only [hbase, hdirn] at h
    split at h
    · simp at h
    · simp only [Outcome.returned.injEq, Prod.mk.injEq] at h
      exact ⟨[], [], [(dir, name)], by simp [← h.1], by simp [FsNode.sourceFiles],
        List.Forall₂.nil, fun hn => by simp [← h.2] at hn⟩
    · simp only [Outcome.returned.injEq, Prod.mk.injEq] at h
      refine ⟨[_], [(dir, name)], [], h.1.symm, by simp [FsNode.sourceFiles], ?_,
        fun _ => rfl⟩
      refine List.Forall₂.cons ?_ List.Forall₂.nil
      refine ⟨rfl, ?_⟩
      simp only [storageFileMeta, ignition.FileFromBytes]

theorem addStorageFilesChildren_walk {T C : Type} (eng : TemplateEngine T C) (td : C) :
    ∀ (children : List FsNode) (us : List String) (dir name base : String)
      (cfg cfg' : igntypes.Config) (err : Option GoError),
      (∀ u ∈ us, IsElem u) → IsElem dir → IsElem name →
      FsNode.allWellNamed children = true →
      addStorageFilesChildren eng base (joinElems (us ++ [dir, name])) children td cfg
        = .returned (cfg', err) →
      ∃ new processed rest,
        cfg' = { cfg with StorageFiles := cfg.StorageFiles ++ new } ∧
        FsNode.sourceFilesOf name children = processed ++ rest ∧
        List.Forall₂ EmitsFor processed new ∧ (err = none → rest = [])
  | [], us, dir, name, base, cfg, cfg', err, _, _, _, _, h => by
    simp only [addStorageFilesChildren, Outcome.returned.injEq, Prod.mk.injEq] at h
    exact ⟨[], [], [], by simp [← h.1], by simp [FsNode.sourceFilesOf], List.Forall₂.nil,
      fun _ => rfl⟩
  | child :: rest, us, dir, name, base, cfg, cfg', err, hus, hdir, hname, hwn, h => by
    simp only [FsNode.allWellNamed, Bool.and_eq_true] at hwn
    simp only [addStorageFilesChildren] at h
    have hchildName : IsElem child.Name := by
      have := hwn.1
      cases child <;> simp_all [FsNode.wellNamed, FsNode.Name]
    have huri : path.Join (joinElems (us ++ [dir, name])) child.Name =
        joinElems ((us ++ [dir]) ++ [name, child.Name]) := by
      rw [Join_joinElems _ _ (by simp) _ hchildName]
      · simp
      · intro u hu
        rcases List.mem_append.1 hu with h | h
        · exact hus u h
        · simp at h
          rcases h with h | h
          · exact h ▸ hdir
          · exact h ▸ hname
    rw [huri] at h
    have hus' : ∀ u ∈ us ++ [dir], IsElem u := by
      intro u hu
      rcases List.mem_append.1 hu with h | h
      · exact hus u h
      · simp at h; exact h ▸ hdir
    cases hc : addStorageFiles eng (path.Join base child.Name)
        (joinElems ((us ++ [dir]) ++ [name, child.Name])) child td cfg with
    | panicked v => rw [hc] at h; simp at h
    | returned r =>
      obtain ⟨cfg1, e1⟩ := r
      obtain ⟨new1, p1, r1, hcfg1, hsrc1, hfa1, hrest1⟩ :=
        addStorageFiles_walk eng td child (us ++ [dir]) name _ cfg cfg1 e1 hus' hname
          hwn.1 hc
      rw [hc] at h
      cases e1 with
      | some e =>
        simp only [Outcome.returned.injEq, Prod.mk.injEq] at h
        refine ⟨new1, p1, r1 ++ FsNode.sourceFilesOf name rest, ?_, ?_, hfa1, ?_⟩
        · rw [← h.1, hcfg1]
        · simp [FsNode.sourceFilesOf, hsrc1]
        · intro hn; simp [← h.2] at hn
      | none =>
        have hr1 : r1 = [] := hrest1 rfl
        subst hr1
        simp only at h
        obtain ⟨new2, p2, r2, hcfg2, hsrc2, hfa2, hrest2⟩ :=
          addStorageFilesChildren_walk eng td rest us dir name base cfg1 cfg' err
            hus hdir hname hwn.2 h
        refine ⟨new1 ++ new2, p1 ++ p2, r2, ?_, ?_, ?_, hrest2⟩
        · rw [hcfg2, hcfg1]; simp
        · simp [FsNode.sourceFilesOf, hsrc1, hsrc2]
        · exact List.rel_append hfa1 hfa2

end

/-- C3, as amended: in a walk of `addStorageFiles` over a tree of plainly named entries
opened at a path that ends in the tree's own name, the files appended correspond one to
one, in order, to the leaf source files processed, and a source file named motd whose
parent directory is not named bin gives a file of mode 0644 with the append flag set. -/
theorem addStorageFiles_motd {T C : Type} (eng : TemplateEngine T C) (td : C)
    (node : FsNode) (us : List String) (dir base : String)
    (cfg cfg' : igntypes.Config) (err : Option GoError)
    (hus : ∀ u ∈ us, IsElem u) (hdir : IsElem dir) (hwn : node.wellNamed = true)
    (h : addStorageFiles eng base (joinElems (us ++ [dir, node.Name])) node td cfg
      = .returned (cfg', err)) :
    ∃ new processed rest,
      cfg' = { cfg with StorageFiles := cfg.StorageFiles ++ new } ∧
      node.sourceFiles dir = processed ++ rest ∧ (err = none → rest = []) ∧
      List.Forall₂ (fun src f => src.2 = "motd" → src.1 ≠ "bin" →
        f.Mode = 0o644 ∧ f.Append = true) processed new := by
  obtain ⟨new, processed, rest, h1, h2, h3, h4⟩ :=
    addStorageFiles_walk eng td node us dir base cfg cfg' err hus hdir hwn h
  refine ⟨new, processed, rest, h1, h2, h4, h3.imp ?_⟩
  rintro ⟨d, n⟩ f ⟨-, hm⟩ hn hd
  simp only at hn hd
  simp only [storageFileMeta, hn, hd, if_false, if_true, Prod.mk.injEq] at hm
  exact hm

/-- C4: in a walk of `addStorageFiles` over a tree of plainly named entries opened at a
path that ends in the tree's own name, the files appended correspond one to one, in
order, to the leaf source files processed (all of them when no error is returned); each
is owned by root; a source file whose parent directory is named bin gives mode 0555
without append, and one that is neither in a bin directory nor named motd gives mode
0600 without append. -/
theorem addStorageFiles_bin_and_other {T C : Type} (eng : TemplateEngine T C) (td : C)
    (node : FsNode) (us : List String) (dir base : String)
    (cfg cfg' : igntypes.Config) (err : Option GoError)
    (hus : ∀ u ∈ us, IsElem u) (hdir : IsElem dir) (hwn : node.wellNamed = true)
    (h : addStorageFiles eng base (joinElems (us ++ [dir, node.Name])) node td cfg
      = .returned (cfg', err)) :
    ∃ new processed rest,
      cfg' = { cfg with StorageFiles := cfg.StorageFiles ++ new } ∧
      node.sourceFiles dir = processed ++ rest ∧ (err = none → rest = []) ∧
      List.Forall₂ (fun src f => f.User = "root" ∧
        (src.1 = "bin" → f.Mode = 0o555 ∧ f.Append = false) ∧
        (src.1 ≠ "bin" → src.2 ≠ "motd" → f.Mode = 0o600 ∧ f.Append = false))
        processed new := by
  obtain ⟨new, processed, rest, h1, h2, h3, h4⟩ :=
    addStorageFiles_walk eng td node us dir base cfg cfg' err hus hdir hwn h
  refine ⟨new, processed, rest, h1, h2, h4, h3.imp ?_⟩
  rintro ⟨d, n⟩ f ⟨hu, hm⟩
  refine ⟨hu, ?_, ?_⟩
  · intro hd
    simp only at hd
    simp only [storageFileMeta, hd, if_true, Prod.mk.injEq] at hm
    exact hm
  · intro hd hn
    simp only at hd hn
    simp only [storageFileMeta, hd, hn, if_false, Prod.mk.injEq] at hm
    exact hm

theorem filesTree_walk :
    addStorageFiles Example.engine "/" (joinElems ([] ++ ["bootstrap", Example.filesTree.Name]))
      Example.filesTree () Example.emptyConfig =
    .returned ({ Example.emptyConfig with
      StorageFiles := Example.emptyConfig.StorageFiles ++ Example.filesTreeFiles }, none) := by
  decide

/-- C3 as stated fails on the tree `filesTree`, walked as `Generate` walks it: the walk
returns without error, its source files include usr/bin/motd, and the file appended for
it has mode 0555 and no append flag, so not every source file named motd gets mode 0644
with append. -/
theorem addStorageFiles_motd_counterexample :
    addStorageFiles Example.engine "/" "bootstrap/files" Example.filesTree ()
        Example.emptyConfig =
      .returned ({ Example.emptyConfig with StorageFiles := Example.filesTreeFiles }, none) ∧
    Example.filesTree.sourceFiles "bootstrap" =
      [("bin", "foo.sh"), ("bin", "motd"), ("etc", "motd"), ("etc", "hosts")] ∧
    ¬ ∀ p ∈ List.zip (Example.filesTree.sourceFiles "bootstrap") Example.filesTreeFiles,
        p.1.2 = "motd" → p.2.Mode = 0o644 ∧ p.2.Append = true := by
  refine ⟨by decide, by decide, by decide⟩

/-- C3, as amended, on the tree `filesTree` walked as `Generate` walks it. -/
theorem addStorageFiles_motd_witness :
    ∃ new processed rest,
      ({ Example.emptyConfig with
          StorageFiles := Example.emptyConfig.StorageFiles ++ Example.filesTreeFiles }
        : igntypes.Config) =
        { Example.emptyConfig with StorageFiles := Example.emptyConfig.StorageFiles ++ new } ∧
      Example.filesTree.sourceFiles "bootstrap" = processed ++ rest ∧
      ((none : Option GoError) = none → rest = []) ∧
      List.Forall₂ (fun src f => src.2 = "motd" → src.1 ≠ "bin" →
        f.Mode = 0o644 ∧ f.Append = true) processed new :=
  addStorageFiles_motd Example.engine () Example.filesTree [] "bootstrap" "/"
    Example.emptyConfig _ none (by simp) (by decide) (by decide) filesTree_walk

/-- C4 on the tree `filesTree` walked as `Generate` walks it. -/
theorem addStorageFiles_bin_and_other_witness :
    ∃ new processed rest,
      ({ Example.emptyConfig with
          StorageFiles := Example.emptyConfig.StorageFiles ++ Example.filesTreeFiles }
        : igntypes.Config) =
        { Example.emptyConfig with StorageFiles := Example.emptyConfig.StorageFiles ++ new } ∧
      Example.filesTree.sourceFiles "bootstrap" = processed ++ rest ∧
      ((none : Option GoError) = none → rest = []) ∧
      List.Forall₂ (fun src f => f.User = "root" ∧
        (src.1 = "bin" → f.Mode = 0o555 ∧ f.Append = false) ∧
        (src.1 ≠ "bin" → src.2 ≠ "motd" → f.Mode = 0o600 ∧ f.Append = false))
        processed new :=
  addStorageFiles_bin_and_other Example.engine () Example.filesTree [] "bootstrap" "/"
    Example.emptyConfig _ none (by simp) (by decide) (by decide) filesTree_walk

end StorageFiles


section SystemdUnits

open bootstrap

theorem readFile_ok_name {T C : Type} (eng : TemplateEngine T C) (name : String)
    (reader : Except GoError String) (td : C) (n data : String)
    (h : readFile eng name reader td = .returned (n, data, none)) :
    n = strings.TrimSuffix name ".template" := by
  cases reader with
  | error e => simp [readFile] at h
  | ok text =>
    simp only [readFile] at h
    split_ifs at h with hext
    · split at h
      · simp at h
      · split at h
        · simp at h
        · simp only [Outcome.returned.injEq, Prod.mk.injEq] at h
          exact h.1.symm
    · have hs : strings.HasSuffix name ".template" = false := by
        rw [Ext_eq_template_iff] at hext
        simpa using hext
      simp only [Outcome.returned.injEq, Prod.mk.injEq] at h
      rw [TrimSuffix_of_not _ _ hs]
      exact h.1.symm

theorem readDropins_spec {T C : Type} (eng : TemplateEngine T C) (td : C) :
    ∀ (children : List FsNode) (acc dropins : List igntypes.SystemdDropin),
      readDropins eng td children acc = .returned (dropins, none) →
      ∃ new, dropins = acc ++ new ∧
        List.Forall₂ (fun (child : FsNode) (d : igntypes.SystemdDropin) =>
          d.Name = strings.TrimSuffix child.Name ".template") children new := by
  intro children
  induction children with
  | nil =>
    intro acc dropins h
    simp only [readDropins, Outcome.returned.injEq, Prod.mk.injEq] at h
    exact ⟨[], by simp [h.1], List.Forall₂.nil⟩
  | cons child rest ih =>
    intro acc dropins h
    have key : ∀ (hnb : ∀ n e, child ≠ .broken n e),
        readDropins eng td (child :: rest) acc =
          (match readFile eng child.Name child.ReadAll td with
           | .panicked v => .panicked v
           | .returned (_, _, some err) => .returned (acc, some err)
           | .returned (childName, contents, none) =>
             readDropins eng td rest (acc ++ [{ Name := childName, Contents := contents }])) := by
      intro hnb
      cases child with
      | broken n e => exact absurd rfl (hnb n e)
      | file n c => simp only [readDropins]
      | dir n e c => simp only [readDropins]
    cases hc : child with
    | broken n e =>
      rw [hc] at h
      simp [readDropins] at h
    | file n c =>
      rw [key (by rw [hc]; intro _ _ h'; cases h')] at h
      split at h
      · simp at h
      · simp at h
      · rename_i childName contents hr
        obtain ⟨new, hn, hfa⟩ := ih _ _ h
        refine ⟨⟨childName, contents⟩ :: new, by simp [hn], List.Forall₂.cons ?_ hfa⟩
        rw [← hc]
        exact readFile_ok_name eng _ _ td _ _ hr
    | dir n e c =>
      rw [key (by rw [hc]; intro _ _ h'; cases h')] at h
      split at h
      · simp at h
      · simp at h
      · rename_i childName contents hr
        obtain ⟨new, hn, hfa⟩ := ih _ _ h
        refine ⟨⟨childName, contents⟩ :: new, by simp [hn], List.Forall₂.cons ?_ hfa⟩
        rw [← hc]
        exact readFile_ok_name eng _ _ td _ _ hr

theorem unitEnabled_spec (name : String) :
    (unitEnabled name = some true ↔
      name ∈ ["progress.service", "kubelet.service", "keepalived.service",
        "systemd-journal-gatewayd.socket"]) ∧
    (name ∉ ["progress.service", "kubelet.service", "keepalived.service",
        "systemd-journal-gatewayd.socket"] → unitEnabled name = none) := by
  unfold unitEnabled enabledUnits
  constructor
  · split_ifs with h <;> simp [h]
  · intro h
    rw [if_neg h]

theorem addSystemdUnitsLoop_spec {T C : Type} (eng : TemplateEngine T C) (td : C) :
    ∀ (children : List FsNode) (cfg cfg' : igntypes.Config) (err : Option GoError),
      addSystemdUnitsLoop eng td children cfg = .returned (cfg', err) →
      ∃ new processed rest,
        cfg' = { cfg with SystemdUnits := cfg.SystemdUnits ++ new } ∧
        unitSources children = processed ++ rest ∧
        List.Forall₂ UnitFor processed new ∧ (err = none → rest = []) := by
  intro children
  induction children with
  | nil =>
    intro cfg cfg' err h
    simp only [addSystemdUnitsLoop, Outcome.returned.injEq, Prod.mk.injEq] at h
    exact ⟨[], [], [], by simp [← h.1], by simp [unitSources], List.Forall₂.nil,
      fun _ => rfl⟩
  | cons child rest ih =>
    intro cfg cfg' err h
    cases child with
    | broken n e =>
      simp only [addSystemdUnitsLoop, Outcome.returned.injEq, Prod.mk.injEq] at h
      exact ⟨[], [], _, by simp [← h.1], rfl, List.Forall₂.nil,
        fun hn => by simp [← h.2] at hn⟩
    | dir dname e children =>
      simp only [addSystemdUnitsLoop] at h
      by_cases hs : strings.HasSuffix dname ".d" = true
      · have hsrc : unitSources (FsNode.dir dname e children :: rest) =
            FsNode.dir dname e children :: unitSources rest := by
          simp [unitSources, hs]
        simp only [hs, not_true_eq_false, if_false] at h
        cases e with
        | some e' =>
          simp only [Outcome.returned.injEq, Prod.mk.injEq] at h
          exact ⟨[], [], _, by simp [← h.1], rfl, List.Forall₂.nil,
            fun hn => by simp [← h.2] at hn⟩
        | none =>
          simp only at h
          split at h
          · simp at h
          · simp only [Outcome.returned.injEq, Prod.mk.injEq] at h
            exact ⟨[], [], _, by simp [← h.1], rfl, List.Forall₂.nil,
              fun hn => by simp [← h.2] at hn⟩
          · rename_i dropins hd
            obtain ⟨new, p, r, hcfg, hsrc', hfa, hrest⟩ := ih _ _ _ h
            obtain ⟨dnew, hdn, hdfa⟩ := readDropins_spec eng td children [] dropins hd
            have hdn' : dropins = dnew := by simpa using hdn
            refine ⟨(⟨strings.TrimSuffix dname ".d", "", dropins,
                unitEnabled (strings.TrimSuffix dname ".d")⟩ : igntypes.Unit) :: new,
              FsNode.dir dname none children :: p, r, ?_, ?_,
              List.Forall₂.cons ?_ hfa, hrest⟩
            · rw [hcfg]; simp
            · rw [hsrc, hsrc']; simp
            · refine ⟨(unitEnabled_spec _).1, (unitEnabled_spec _).2, rfl, rfl, ?_⟩
              rw [hdn']
              exact hdfa
      · have hsrc : unitSources (FsNode.dir dname e children :: rest) =
            unitSources rest := by
          simp [unitSources, hs]
        simp only [hs, not_false_eq_true, if_true] at h
        rw [hsrc]
        exact ih _ _ _ h
    | file fname contents =>
      have hsrc : unitSources (FsNode.file fname contents :: rest) =
          FsNode.file fname contents :: unitSources rest := by
        simp [unitSources]
      simp only [addSystemdUnitsLoop] at h
      split at h
      · simp at h
      · simp only [Outcome.returned.injEq, Prod.mk.injEq] at h
        exact ⟨[], [], _, by simp [← h.1], rfl, List.Forall₂.nil,
          fun hn => by simp [← h.2] at hn⟩
      · rename_i name text hr
        obtain ⟨new, p, r, hcfg, hsrc', hfa, hrest⟩ := ih _ _ _ h
        refine ⟨(⟨name, text, [], unitEnabled name⟩ : igntypes.Unit) :: new,
          FsNode.file fname contents :: p, r, ?_, ?_,
          List.Forall₂.cons ?_ hfa, hrest⟩
        · rw [hcfg]; simp
        · rw [hsrc, hsrc']; simp
        · exact ⟨(unitEnabled_spec _).1, (unitEnabled_spec _).2,
            readFile_ok_name eng _ _ td _ _ hr⟩

/-- The units appended by a call of `addSystemdUnits` that returns, against the unit
sources of the entry it opens. -/
theorem addSystemdUnits_correspond {T C : Type} (eng : TemplateEngine T C) (td : C)
    (node : FsNode) (cfg cfg' : igntypes.Config) (err : Option GoError)
    (h : addSystemdUnits eng node td cfg = .returned (cfg', err)) :
    ∃ new processed rest,
      cfg' = { cfg with SystemdUnits := cfg.SystemdUnits ++ new } ∧
      unitSourcesOf node = processed ++ rest ∧ (err = none → rest = []) ∧
      List.Forall₂ UnitFor processed new ∧
      (∀ u ∈ new, u.Enabled ≠ some false) ∧
      List.Forall₂ (fun (src : FsNode) (u : igntypes.Unit) =>
        ∀ name e children, src = .dir name e children →
          u.Contents = "" ∧ u.Dropins.length = children.length) processed new := by
  have main : ∃ new processed rest,
      cfg' = { cfg with SystemdUnits := cfg.SystemdUnits ++ new } ∧
      unitSourcesOf node = processed ++ rest ∧ (err = none → rest = []) ∧
      List.Forall₂ UnitFor processed new := by
    cases node with
    | broken n e =>
      simp only [addSystemdUnits, Outcome.returned.injEq, Prod.mk.injEq] at h
      exact ⟨[], [], [], by simp [← h.1], by simp [unitSourcesOf], fun _ => rfl,
        List.Forall₂.nil⟩
    | file n c =>
      simp only [addSystemdUnits, Outcome.returned.injEq, Prod.mk.injEq] at h
      exact ⟨[], [], [], by simp [← h.1], by simp [unitSourcesOf], fun _ => rfl,
        List.Forall₂.nil⟩
    | dir n e children =>
      cases e with
      | some e' =>
        simp only [addSystemdUnits, Outcome.returned.injEq, Prod.mk.injEq] at h
        exact ⟨[], [], [], by simp [← h.1], by simp [unitSourcesOf], fun _ => rfl,
          List.Forall₂.nil⟩
      | none =>
        simp only [addSystemdUnits] at h
        obtain ⟨new, p, r, h1, h2, h3, h4⟩ := addSystemdUnitsLoop_spec eng td _ _ _ _ h
        exact ⟨new, p, r, h1, by simpa [unitSourcesOf] using h2, h4, h3⟩
  obtain ⟨new, p, r, h1, h2, h3, h4⟩ := main
  refine ⟨new, p, r, h1, h2, h3, h4, ?_, ?_⟩
  · intro u hu
    obtain ⟨src, -, hsrc⟩ : ∃ src, src ∈ p ∧ UnitFor src u := by
      clear h1 h2 h3
      induction h4 with
      | nil => simp at hu
      | cons hab _ ih =>
        rcases List.mem_cons.1 hu with h' | h'
        · exact ⟨_, List.mem_cons_self _ _, h' ▸ hab⟩
        · obtain ⟨s, hs, hs'⟩ := ih h'
          exact ⟨s, List.mem_cons_of_mem _ hs, hs'⟩
    intro hf
    by_cases hm : u.Name ∈ ["progress.service", "kubelet.service", "keepalived.service",
        "systemd-journal-gatewayd.socket"]
    · have := hsrc.1.2 hm
      rw [hf] at this
      cases this
    · have := hsrc.2.1 hm
      rw [hf] at this
      cases this
  · refine h4.imp ?_
    rintro src u ⟨-, -, hm⟩ name e children rfl
    exact ⟨hm.2.1, hm.2.2.length_eq.symm⟩

theorem readDropins_cons {T C : Type} (eng : TemplateEngine T C) (td : C) (child : FsNode)
    (rest : List FsNode) (acc : List igntypes.SystemdDropin)
    (hnb : ∀ n e, child ≠ .broken n e) :
    readDropins eng td (child :: rest) acc =
      (match readFile eng child.Name child.ReadAll td with
       | .panicked v => .panicked v
       | .returned (_, _, some err) => .returned (acc, some err)
       | .returned (childName, contents, none) =>
         readDropins eng td rest (acc ++ [{ Name := childName, Contents := contents }])) := by
  cases child with
  | broken n e => exact absurd rfl (hnb n e)
  | file n c => simp only [readDropins]
  | dir n e c => simp only [readDropins]

theorem readDropins_ok {T C : Type} (eng : TemplateEngine T C) (td : C) :
    ∀ (children : List FsNode) (acc : List igntypes.SystemdDropin),
      (∀ child ∈ children, ReadsOk eng td child) →
      ∃ new, new.length = children.length ∧
        readDropins eng td children acc = .returned (acc ++ new, none) := by
  intro children
  induction children with
  | nil =>
    intro acc _
    exact ⟨[], rfl, by simp [readDropins]⟩
  | cons child rest ih =>
    intro acc hok
    obtain ⟨hnb, name, data, hr⟩ := hok child (List.mem_cons_self _ _)
    obtain ⟨new, hlen, hrun⟩ := ih (acc ++ [{ Name := name, Contents := data }])
      (fun c hc => hok c (List.mem_cons_of_mem _ hc))
    refine ⟨⟨name, data⟩ :: new, by simp [hlen], ?_⟩
    rw [readDropins_cons eng td child rest acc hnb, hr]
    simp only [hrun, List.append_assoc, List.singleton_append]

theorem addSystemdUnitsLoop_dropinDir {T C : Type} (eng : TemplateEngine T C) (td : C)
    (dname : String) (children rest : List FsNode) (cfg : igntypes.Config)
    (hs : strings.HasSuffix dname ".d" = true)
    (hok : ∀ child ∈ children, ReadsOk eng td child) :
    ∃ dropins : List igntypes.SystemdDropin, dropins.length = children.length ∧
      addSystemdUnitsLoop eng td (.dir dname none children :: rest) cfg =
        addSystemdUnitsLoop eng td rest
          { cfg with SystemdUnits := cfg.SystemdUnits ++
              [{ Name := strings.TrimSuffix dname ".d", Contents := "", Dropins := dropins,
                 Enabled := unitEnabled (strings.TrimSuffix dname ".d") }] } := by
  obtain ⟨new, hlen, hrun⟩ := readDropins_ok eng td children [] hok
  refine ⟨new, hlen, ?_⟩
  simp only [addSystemdUnitsLoop, hs, not_true_eq_false, if_false, hrun, List.nil_append]

theorem addSystemdUnitsLoop_unitFile {T C : Type} (eng : TemplateEngine T C) (td : C)
    (fname : String) (contents : Except GoError String) (rest : List FsNode)
    (cfg : igntypes.Config) (name data : String)
    (hr : readFile eng fname contents td = .returned (name, data, none)) :
    addSystemdUnitsLoop eng td (.file fname contents :: rest) cfg =
      addSystemdUnitsLoop eng td rest
        { cfg with SystemdUnits := cfg.SystemdUnits ++
            [{ Name := name, Contents := data, Dropins := [],
               Enabled := unitEnabled name }] } := by
  simp only [addSystemdUnitsLoop, hr]

theorem addSystemdUnitsLoop_ok {T C : Type} (eng : TemplateEngine T C) (td : C) :
    ∀ (children : List FsNode) (cfg : igntypes.Config),
      (∀ child ∈ children, UnitChildOk eng td child) →
      ∃ cfg', addSystemdUnitsLoop eng td children cfg = .returned (cfg', none) := by
  intro children
  induction children with
  | nil =>
    intro cfg _
    exact ⟨cfg, by simp [addSystemdUnitsLoop]⟩
  | cons child rest ih =>
    intro cfg hok
    have hrest : ∀ c ∈ rest, UnitChildOk eng td c :=
      fun c hc => hok c (List.mem_cons_of_mem _ hc)
    have hchild := hok child (List.mem_cons_self _ _)
    cases child with
    | broken n e => exact absurd hchild (by simp [UnitChildOk])
    | file fname contents =>
      obtain ⟨n, data, hr⟩ := hchild
      rw [addSystemdUnitsLoop_unitFile eng td fname contents rest cfg n data hr]
      exact ih _ hrest
    | dir dname e children =>
      by_cases hs : strings.HasSuffix dname ".d" = true
      · obtain ⟨he, hc⟩ := hchild hs
        subst he
        obtain ⟨dropins, -, hrun⟩ :=
          addSystemdUnitsLoop_dropinDir eng td dname children rest cfg hs hc
        rw [hrun]
        exact ih _ hrest
      · simp only [addSystemdUnitsLoop, hs, not_false_eq_true, if_true]
        exact ih _ hrest

/-- C9: the units `addSystemdUnits` appends correspond one to one, in order, to the unit
sources processed (the files and the ".d" directories of the units directory; all of
them when no error is returned).  The unit of a file is called by the file name without
the template marker; the unit of a drop-in directory is called by the directory name
without ".d", has empty contents and one drop-in per child of the directory.  In both
cases the enabled flag is set to true exactly when the unit's name is progress.service,
kubelet.service, keepalived.service or systemd-journal-gatewayd.socket, and is unset
(never false) for every other name.  A drop-in directory whose children are read without
an error does yield its unit, and so does a unit file that is read without an error; a
units directory in which nothing goes wrong is processed to the end without an error. -/
theorem addSystemdUnits_units :
    (∀ (T C : Type) (eng : TemplateEngine T C) (td : C) (node : FsNode)
      (cfg cfg' : igntypes.Config) (err : Option GoError),
      addSystemdUnits eng node td cfg = .returned (cfg', err) →
      ∃ new processed rest,
        cfg' = { cfg with SystemdUnits := cfg.SystemdUnits ++ new } ∧
        unitSourcesOf node = processed ++ rest ∧ (err = none → rest = []) ∧
        List.Forall₂ UnitFor processed new ∧
        (∀ u ∈ new, u.Enabled ≠ some false) ∧
        List.Forall₂ (fun (src : FsNode) (u : igntypes.Unit) =>
          ∀ name e children, src = .dir name e children →
            u.Contents = "" ∧ u.Dropins.length = children.length) processed new) ∧
    (∀ (T C : Type) (eng : TemplateEngine T C) (td : C) (dname : String)
      (children rest : List FsNode) (cfg : igntypes.Config),
      strings.HasSuffix dname ".d" = true →
      (∀ child ∈ children, ReadsOk eng td child) →
      ∃ dropins : List igntypes.SystemdDropin, dropins.length = children.length ∧
        addSystemdUnitsLoop eng td (.dir dname none children :: rest) cfg =
          addSystemdUnitsLoop eng td rest
            { cfg with SystemdUnits := cfg.SystemdUnits ++
                [{ Name := strings.TrimSuffix dname ".d", Contents := "",
                   Dropins := dropins,
                   Enabled := unitEnabled (strings.TrimSuffix dname ".d") }] }) ∧
    (∀ (T C : Type) (eng : TemplateEngine T C) (td : C) (fname : String)
      (contents : Except GoError String) (rest : List FsNode) (cfg : igntypes.Config)
      (name data : String),
      readFile eng fname contents td = .returned (name, data, none) →
      addSystemdUnitsLoop eng td (.file fname contents :: rest) cfg =
        addSystemdUnitsLoop eng td rest
          { cfg with SystemdUnits := cfg.SystemdUnits ++
              [{ Name := name, Contents := data, Dropins := [],
                 Enabled := unitEnabled name }] }) ∧
    (∀ (T C : Type) (eng : TemplateEngine T C) (td : C) (name : String)
      (children : List FsNode) (cfg : igntypes.Config),
      (∀ child ∈ children, UnitChildOk eng td child) →
      ∃ cfg', addSystemdUnits eng (.dir name none children) td cfg
        = .returned (cfg', none)) :=
  ⟨fun _ _ eng td node cfg cfg' err h =>
      addSystemdUnits_correspond eng td node cfg cfg' err h,
    fun _ _ eng td dname children rest cfg hs hok =>
      addSystemdUnitsLoop_dropinDir eng td dname children rest cfg hs hok,
    fun _ _ eng td fname contents rest cfg name data hr =>
      addSystemdUnitsLoop_unitFile eng td fname contents rest cfg name data hr,
    fun _ _ eng td _ children cfg hok => by
      simp only [addSystemdUnits]
      exact addSystemdUnitsLoop_ok eng td children cfg hok⟩

theorem unitsTree_run :
    addSystemdUnits Example.engine Example.unitsTree () Example.emptyConfig =
      .returned ({ Example.emptyConfig with
        SystemdUnits := Example.emptyConfig.SystemdUnits ++ Example.unitsTreeUnits }, none) := by
  decide

/-- C9 on the units directory `unitsTree`: `addSystemdUnits` returns without an error
and appends the four units of `unitsTreeUnits`, which correspond to the four unit
sources of the directory. -/
theorem addSystemdUnits_units_witness :
    addSystemdUnits Example.engine Example.unitsTree () Example.emptyConfig =
      .returned ({ Example.emptyConfig with
        SystemdUnits := Example.emptyConfig.SystemdUnits ++ Example.unitsTreeUnits }, none) ∧
    ∃ new processed rest,
      ({ Example.emptyConfig with
          SystemdUnits := Example.emptyConfig.SystemdUnits ++ Example.unitsTreeUnits }
        : igntypes.Config) =
        { Example.emptyConfig with SystemdUnits := Example.emptyConfig.SystemdUnits ++ new } ∧
      unitSourcesOf Example.unitsTree = processed ++ rest ∧
      ((none : Option GoError) = none → rest = []) ∧
      List.Forall₂ UnitFor processed new ∧
      (∀ u ∈ new, u.Enabled ≠ some false) ∧
      List.Forall₂ (fun (src : FsNode) (u : igntypes.Unit) =>
        ∀ name e children, src = .dir name e children →
          u.Contents = "" ∧ u.Dropins.length = children.length) processed new :=
  ⟨unitsTree_run,
   addSystemdUnits_units.1 String Unit Example.engine () Example.unitsTree
     Example.emptyConfig _ none unitsTree_run⟩

end SystemdUnits


section ParentFiles

open bootstrap path

theorem not_mem_of_mem_splitOnP (p : Char → Bool) :
    ∀ (xs : List Char), ∀ l ∈ xs.splitOnP p, ∀ c ∈ l, p c = false := by
  intro xs
  induction xs with
  | nil =>
    intro l hl c hc
    simp at hl
    subst hl
    simp at hc
  | cons x xs ih =>
    intro l hl c hc
    rw [List.splitOnP_cons] at hl
    split_ifs at hl with hx
    · rcases List.mem_cons.1 hl with h | h
      · subst h; simp at hc
      · exact ih l h c hc
    · cases hsp : xs.splitOnP p with
      | nil => exact absurd hsp (List.splitOnP_ne_nil _ _)
      | cons hd tl =>
        rw [hsp] at hl ih
        simp only [List.modifyHead_cons] at hl
        rcases List.mem_cons.1 hl with h | h
        · subst h
          rcases List.mem_cons.1 hc with h' | h'
          · subst h'; simpa using hx
          · exact ih hd (List.mem_cons_self _ _) c h'
        · exact ih l (List.mem_cons_of_mem _ h) c hc

theorem not_mem_of_mem_splitOn (xs : List Char) :
    ∀ l ∈ xs.splitOn '/', '/' ∉ l := by
  intro l hl hmem
  have := not_mem_of_mem_splitOnP (· == '/') xs l hl '/' hmem
  simp at this

theorem intercalate_two_append (a b : List Char) (xs : List (List Char)) (hx : xs ≠ []) :
    ['/'].intercalate (a :: b :: xs) = a ++ '/' :: (b ++ '/' :: ['/'].intercalate xs) := by
  cases xs with
  | nil => exact absurd rfl hx
  | cons y l => rw [intercalate_cons_cons, intercalate_cons_cons]

/-- The characters `Clean` reads for `filepath.Join` of /opt/openshift and `name`, and
their elements. -/
theorem rootDir_name_split (name : String) :
    (rootDir ++ "/" ++ name).data =
      '/' :: ['/'].intercalate ("opt".data :: "openshift".data :: name.data.splitOn '/') ∧
    (rootDir ++ "/" ++ name).data.splitOn '/' =
      [] :: "opt".data :: "openshift".data :: name.data.splitOn '/' := by
  have hne : name.data.splitOn '/' ≠ [] := List.splitOnP_ne_nil _ _
  have hname : name.data = ['/'].intercalate (name.data.splitOn '/') :=
    (List.intercalate_splitOn _ '/').symm
  have hd : (rootDir ++ "/" ++ name).data =
      '/' :: ['/'].intercalate ("opt".data :: "openshift".data :: name.data.splitOn '/') := by
    rw [intercalate_two_append _ _ _ hne, ← hname]
    simp [rootDir]
  refine ⟨hd, ?_⟩
  have hd' : (rootDir ++ "/" ++ name).data =
      ['/'].intercalate ([] :: "opt".data :: "openshift".data :: name.data.splitOn '/') := by
    rw [hd, intercalate_cons_cons]
    rfl
  rw [hd']
  refine List.splitOn_intercalate _ '/' ?_ (by simp)
  intro l hl
  rcases List.mem_cons.1 hl with h | h
  · subst h; simp
  · rcases List.mem_cons.1 h with h1 | h1
    · subst h1; decide
    · rcases List.mem_cons.1 h1 with h2 | h2
      · subst h2; decide
      · exact not_mem_of_mem_splitOn _ l h2

theorem foldl_cleanStep_staysBelow (base : List (List Char)) :
    ∀ (elems ex : List (List Char)) (d : Nat),
      ex.length = d → (∀ x ∈ ex, x ≠ ['.', '.']) →
      staysBelowFrom elems d = true →
      ∃ ex', ex' ≠ [] ∧ elems.foldl (cleanStep true) (ex ++ base) = ex' ++ base := by
  intro elems
  induction elems with
  | nil =>
    intro ex d hlen _ h
    simp only [staysBelowFrom, decide_eq_true_eq] at h
    refine ⟨ex, ?_, rfl⟩
    intro hnil
    subst hnil
    simp at hlen
    omega
  | cons e rest ih =>
    intro ex d hlen hex h
    rw [List.foldl_cons]
    unfold staysBelowFrom at h
    by_cases h1 : e = [] ∨ e = ['.']
    · rw [if_pos h1] at h
      have hstep : cleanStep true (ex ++ base) e = ex ++ base := by
        simp [cleanStep, h1]
      rw [hstep]
      exact ih ex d hlen hex h
    · rw [if_neg h1] at h
      by_cases h2 : e = ['.', '.']
      · rw [if_pos h2] at h
        cases d with
        | zero => simp at h
        | succ d' =>
          simp only at h
          cases ex with
          | nil => simp at hlen
          | cons x ex0 =>
            have hx : x ≠ ['.', '.'] := hex x (List.mem_cons_self _ _)
            have hstep : cleanStep true ((x :: ex0) ++ base) e = ex0 ++ base := by
              subst h2
              simp [cleanStep, hx]
            rw [hstep]
            exact ih ex0 d' (by simpa using hlen)
              (fun y hy => hex y (List.mem_cons_of_mem _ hy)) h
      · rw [if_neg h2] at h
        have hstep : cleanStep true (ex ++ base) e = (e :: ex) ++ base := by
          have h1' : ¬ e = [] := fun h' => h1 (Or.inl h')
          have h1'' : ¬ e = ['.'] := fun h' => h1 (Or.inr h')
          simp [cleanStep, h1', h1'', h2]
        rw [hstep]
        refine ih (e :: ex) (d + 1) (by simp [hlen]) ?_ h
        intro y hy
        rcases List.mem_cons.1 hy with h' | h'
        · exact h' ▸ h2
        · exact hex y h'

theorem cleanChars_of_split (w : List Char) (elems : List (List Char))
    (hs : w.splitOn '/' = elems) (hh : w.head? = some '/') :
    cleanChars w = '/' :: ['/'].intercalate (elems.foldl (cleanStep true) []).reverse := by
  simp only [cleanChars, hs, hh]
  simp

theorem cleanChars_rootDir_name (name : String) (h : staysBelow name = true) :
    ∃ ex' : List (List Char), ex' ≠ [] ∧
      cleanChars (rootDir ++ "/" ++ name).data =
        (rootDir ++ "/").data ++ ['/'].intercalate ex' := by
  obtain ⟨hd, hsplit⟩ := rootDir_name_split name
  have hhead : (rootDir ++ "/" ++ name).data.head? = some '/' := by
    rw [hd]; rfl
  obtain ⟨ex', hne, hex'⟩ := foldl_cleanStep_staysBelow ["openshift".data, "opt".data]
    (name.data.splitOn '/') [] 0 rfl (by simp) h
  have hfold : ([] :: "opt".data :: "openshift".data :: name.data.splitOn '/').foldl
      (cleanStep true) [] = ex' ++ ["openshift".data, "opt".data] := by
    rw [← hex']
    rfl
  have hrev : (ex' ++ ["openshift".data, "opt".data]).reverse =
      "opt".data :: "openshift".data :: ex'.reverse := by simp
  refine ⟨ex'.reverse, by simpa using hne, ?_⟩
  rw [cleanChars_of_split _ _ hsplit hhead, hfold, hrev,
    intercalate_two_append _ _ _ (by simpa using hne)]
  rfl

theorem Join_rootDir_under (name : String) (h : staysBelow name = true) :
    path.isUnder "/opt/openshift" (filepath.Join "/opt/openshift" name) = true := by
  have hroot : rootDir ≠ "" := by decide
  obtain ⟨ex', -, hex'⟩ := cleanChars_rootDir_name name h
  show path.isUnder rootDir (filepath.Join rootDir name) = true
  unfold filepath.Join path.Join
  rw [if_neg hroot]
  unfold path.Clean path.isUnder
  rw [List.isPrefixOf_iff_prefix]
  show rootDir.data ++ ['/'] <+: cleanChars (rootDir ++ "/" ++ name).data
  rw [hex']
  exact ⟨['/'].intercalate ex', by simp⟩

theorem Join_rootDir (name : String) (h : IsRelative name) :
    filepath.Join "/opt/openshift" name = "/opt/openshift/" ++ name := by
  have hne : name.data.splitOn '/' ≠ [] := List.splitOnP_ne_nil _ _
  have hname : name.data = ['/'].intercalate (name.data.splitOn '/') :=
    (List.intercalate_splitOn _ '/').symm
  have hroot : rootDir ≠ "" := by decide
  show filepath.Join rootDir name = "/opt/openshift/" ++ name
  unfold filepath.Join path.Join
  rw [if_neg hroot]
  unfold path.Clean
  apply String.ext
  simp only [(rootDir_name_split name).1]
  rw [cleanChars_rooted_elems _ (by simp)]
  · rw [intercalate_two_append _ _ _ hne, ← hname]
    simp
  · intro x hx
    rcases List.mem_cons.1 hx with h1 | h1
    · rw [h1]; decide
    · rcases List.mem_cons.1 h1 with h2 | h2
      · rw [h2]; decide
      · exact h x h2

theorem addAssetFiles_resolved (p : asset.Parents) (files : AssetId → List asset.File)
    (username : String) (mode : Nat) :
    ∀ (assets : List AssetId) (cfg : igntypes.Config),
      (∀ a ∈ assets, p.Files a = some (files a)) →
      addAssetFiles p username mode assets cfg =
        .returned { cfg with StorageFiles := cfg.StorageFiles ++ assets.flatMap fun a =>
          ignition.FilesFromAsset rootDir username mode (files a) } := by
  intro assets
  induction assets with
  | nil => intro cfg _; simp [addAssetFiles]
  | cons a rest ih =>
    intro cfg h
    have ha := h a (List.mem_cons_self _ _)
    simp only [addAssetFiles, asset.Parents.GetFiles, ha]
    rw [ih _ (fun b hb => h b (List.mem_cons_of_mem _ hb))]
    simp

theorem addAssetFiles_missing (p : asset.Parents) (username : String) (mode : Nat)
    (a : AssetId) (hmiss : p.Files a = none) :
    ∀ (assets : List AssetId) (cfg : igntypes.Config), a ∈ assets →
      ∃ v, addAssetFiles p username mode assets cfg = .panicked v := by
  intro assets
  induction assets with
  | nil => intro cfg h; simp at h
  | cons b rest ih =>
    intro cfg h
    cases hb : p.Files b with
    | none => exact ⟨asset.errNotInStore, by simp [addAssetFiles, asset.Parents.GetFiles, hb]⟩
    | some files =>
      have hne : a ≠ b := by
        intro hab
        rw [hab, hb] at hmiss
        cases hmiss
      have hmem : a ∈ rest := by
        rcases List.mem_cons.1 h with h' | h'
        · exact absurd h' hne
        · exact h'
      obtain ⟨v, hv⟩ := ih
        { cfg with StorageFiles := cfg.StorageFiles ++
            ignition.FilesFromAsset rootDir username mode files } hmem
      exact ⟨v, by simp [addAssetFiles, asset.Parents.GetFiles, hb, hv]⟩

theorem addParentFiles_resolved (p : asset.Parents) (files : AssetId → List asset.File)
    (ca : tls.RootCA) (cfg : igntypes.Config)
    (hfiles : ∀ a ∈ manifestAssets ++ credentialAssets ++ [AssetId.JournalCertKey],
      p.Files a = some (files a))
    (hca : p.RootCA = some ca) :
    addParentFiles p cfg =
      .returned { cfg with StorageFiles := cfg.StorageFiles ++ parentFilesSpec files ca } := by
  have hm : ∀ a ∈ manifestAssets, p.Files a = some (files a) := fun a ha =>
    hfiles a (by simp [ha])
  have hc : ∀ a ∈ credentialAssets, p.Files a = some (files a) := fun a ha =>
    hfiles a (by simp [ha])
  have hj : p.Files AssetId.JournalCertKey = some (files AssetId.JournalCertKey) :=
    hfiles _ (by simp)
  unfold addParentFiles
  rw [addAssetFiles_resolved p files _ _ manifestAssets cfg hm]
  simp only
  rw [addAssetFiles_resolved p files _ _ credentialAssets _ hc]
  simp only [asset.Parents.GetRootCA, hca, asset.Parents.GetFiles, hj]
  unfold parentFilesSpec ignition.FilesFromAsset ignition.FileFromBytes
  simp only [manifestAssets, rootDir, List.append_assoc]

theorem addParentFiles_missing (p : asset.Parents) (cfg : igntypes.Config)
    (h : (∃ a ∈ manifestAssets ++ credentialAssets ++ [AssetId.JournalCertKey],
        p.Files a = none) ∨ p.RootCA = none) :
    ∃ v, addParentFiles p cfg = .panicked v := by
  unfold addParentFiles
  cases h1 : addAssetFiles p "root" 0o644 manifestAssets cfg with
  | panicked v => exact ⟨v, rfl⟩
  | returned cfg1 =>
    simp only
    cases h2 : addAssetFiles p "root" 0o600 credentialAssets cfg1 with
    | panicked v => exact ⟨v, rfl⟩
    | returned cfg2 =>
      simp only
      cases hca : p.RootCA with
      | none => exact ⟨asset.errNotInStore, by simp [asset.Parents.GetRootCA, hca]⟩
      | some ca =>
        cases hj : p.Files AssetId.JournalCertKey with
        | none =>
          exact ⟨asset.errNotInStore,
            by simp [asset.Parents.GetRootCA, hca, asset.Parents.GetFiles, hj]⟩
        | some jf =>
          exfalso
          rcases h with ⟨a, ha, hmiss⟩ | hmiss
          · simp only [List.mem_append, List.mem_singleton] at ha
            rcases ha with (ha | ha) | ha
            · obtain ⟨v, hv⟩ := addAssetFiles_missing p "root" 0o644 a hmiss _ cfg ha
              rw [hv] at h1
              cases h1
            · obtain ⟨v, hv⟩ := addAssetFiles_missing p "root" 0o600 a hmiss _ cfg1 ha
              rw [hv] at h2
              cases h2
            · rw [ha, hj] at hmiss
              cases hmiss
          · rw [hca] at hmiss
            cases hmiss

theorem addParentFiles_returned (p : asset.Parents) (cfg cfg' : igntypes.Config)
    (h : addParentFiles p cfg = .returned cfg') :
    ∃ ca, p.RootCA = some ca ∧
      (∀ a ∈ manifestAssets ++ credentialAssets ++ [AssetId.JournalCertKey],
        p.Files a = some ((p.Files a).getD [])) ∧
      cfg' =
        { cfg with StorageFiles := cfg.StorageFiles ++
            parentFilesSpec (fun a => (p.Files a).getD []) ca } := by
  have hfiles : ∀ a ∈ manifestAssets ++ credentialAssets ++ [AssetId.JournalCertKey],
      p.Files a = some ((p.Files a).getD []) := by
    intro a ha
    cases hf : p.Files a with
    | some fs => rfl
    | none =>
      obtain ⟨v, hv⟩ := addParentFiles_missing p cfg (Or.inl ⟨a, ha, hf⟩)
      rw [hv] at h
      cases h
  cases hca : p.RootCA with
  | none =>
    obtain ⟨v, hv⟩ := addParentFiles_missing p cfg (Or.inr hca)
    rw [hv] at h
    cases h
  | some ca =>
    refine ⟨ca, rfl, hfiles, ?_⟩
    rw [addParentFiles_resolved p _ ca cfg hfiles hca] at h
    simp only [Outcome.returned.injEq] at h
    exact h.symm

theorem addSystemdUnits_storageFiles {T C : Type} (eng : TemplateEngine T C) (td : C)
    (node : FsNode) (cfg cfg' : igntypes.Config) (err : Option GoError)
    (h : addSystemdUnits eng node td cfg = .returned (cfg', err)) :
    cfg'.StorageFiles = cfg.StorageFiles := by
  cases node with
  | broken n e =>
    simp only [addSystemdUnits, Outcome.returned.injEq, Prod.mk.injEq] at h
    rw [← h.1]
  | file n c =>
    simp only [addSystemdUnits, Outcome.returned.injEq, Prod.mk.injEq] at h
    rw [← h.1]
  | dir n e children =>
    cases e with
    | some e' =>
      simp only [addSystemdUnits, Outcome.returned.injEq, Prod.mk.injEq] at h
      rw [← h.1]
    | none =>
      simp only [addSystemdUnits] at h
      obtain ⟨new, p, r, h1, -⟩ := addSystemdUnitsLoop_spec eng td _ _ _ _ h
      rw [h1]

theorem parentFilesSpec_under (files : AssetId → List asset.File) (ca : tls.RootCA)
    (hfiles : ∀ a, ∀ f ∈ files a, staysBelow f.Filename = true)
    (hca : staysBelow ca.CertFile.Filename = true) :
    ∀ f ∈ parentFilesSpec files ca, path.isUnder "/opt/openshift" f.Path = true := by
  intro f hf
  unfold parentFilesSpec at hf
  simp only [List.mem_append, List.mem_flatMap, List.mem_map, List.mem_singleton] at hf
  rcases hf with ((⟨a, -, g, hg, rfl⟩ | ⟨a, -, g, hg, rfl⟩) | rfl) | ⟨g, hg, rfl⟩
  · exact Join_rootDir_under _ (hfiles a g hg)
  · exact Join_rootDir_under _ (hfiles a g hg)
  · exact Join_rootDir_under _ hca
  · exact Join_rootDir_under _ (hfiles _ g hg)

theorem Generate_returned_files {T : Type} (eng : TemplateEngine T bootstrapTemplateData)
    (maxStrings : Nat) (env : String → Option String) (Assets : String → FsNode)
    (Marshal : igntypes.Config → Except GoError String) (p : asset.Parents)
    (a a' : Bootstrap) (warnings : List String)
    (h : Generate eng maxStrings env Assets Marshal p a = .returned (a', none, warnings)) :
    ∃ td treeConfig config ca,
      addStorageFiles eng "/" "bootstrap/files" (Assets "bootstrap/files") td
        ⟨MaxVersion, [], [], []⟩ = .returned (treeConfig, none) ∧
      a'.Config = some config ∧ p.RootCA = some ca ∧
      config.StorageFiles = treeConfig.StorageFiles ++
        parentFilesSpec (fun x => (p.Files x).getD []) ca := by
  unfold Generate at h
  split at h
  · simp at h
  · split at h
    · simp at h
    · simp at h
    · rename_i td w htd
      simp only at h
      split at h
      · simp at h
      · simp at h
      · rename_i cfg1 h1
        split at h
        · simp at h
        · simp at h
        · rename_i cfg2 h2
          have hsf := addSystemdUnits_storageFiles eng td _ _ _ _ h2
          split at h
          · simp at h
          · rename_i cfg3 h3
            obtain ⟨ca, hca, -, hcfg3⟩ := addParentFiles_returned p cfg2 cfg3 h3
            split at h
            · simp at h
            · simp only [Outcome.returned.injEq, Prod.mk.injEq] at h
              refine ⟨td, cfg1, _, ca, h1, by rw [← h.1], hca, ?_⟩
              rw [hcfg3, hsf]

/-- C10, as amended: for every store that holds the assets asked for, `addParentFiles`
appends to the files already in the bundle, in this order: the files of Manifests,
Openshift and Master with owner root and mode 0644; the files of the kubeconfig and tls
assets of the second list with owner root and mode 0600; one file for the root CA,
holding its certificate, with owner root and mode 0644; the journal files with owner
systemd-journal-gateway and mode 0600.  Each file is placed at the path `filepath.Join`
gives for /opt/openshift and its file name, and nothing else of the bundle changes.
That path is below /opt/openshift whenever the file name does not climb above the
directory it starts in and names something below it, and it is /opt/openshift/ followed
by the file name when the name is a relative path of plain elements.  In a `Generate`
that returns no error these files follow the files of the template tree. -/
theorem addParentFiles_contributions :
    (∀ (p : asset.Parents) (files : AssetId → List asset.File) (ca : tls.RootCA)
      (cfg : igntypes.Config),
      (∀ a ∈ manifestAssets ++ credentialAssets ++ [AssetId.JournalCertKey],
        p.Files a = some (files a)) →
      p.RootCA = some ca →
      addParentFiles p cfg =
        .returned { cfg with StorageFiles := cfg.StorageFiles ++ parentFilesSpec files ca }) ∧
    (∀ name : String, staysBelow name = true →
      path.isUnder "/opt/openshift" (filepath.Join "/opt/openshift" name) = true) ∧
    (∀ name : String, IsRelative name →
      filepath.Join "/opt/openshift" name = "/opt/openshift/" ++ name) ∧
    (∀ (files : AssetId → List asset.File) (ca : tls.RootCA),
      (∀ a, ∀ f ∈ files a, staysBelow f.Filename = true) →
      staysBelow ca.CertFile.Filename = true →
      ∀ f ∈ parentFilesSpec files ca, path.isUnder "/opt/openshift" f.Path = true) ∧
    (∀ (T : Type) (eng : TemplateEngine T bootstrapTemplateData) (maxStrings : Nat)
      (env : String → Option String) (Assets : String → FsNode)
      (Marshal : igntypes.Config → Except GoError String) (p : asset.Parents)
      (a a' : Bootstrap) (warnings : List String),
      Generate eng maxStrings env Assets Marshal p a = .returned (a', none, warnings) →
      ∃ td treeConfig config ca,
        addStorageFiles eng "/" "bootstrap/files" (Assets "bootstrap/files") td
          ⟨MaxVersion, [], [], []⟩ = .returned (treeConfig, none) ∧
        a'.Config = some config ∧ p.RootCA = some ca ∧
        config.StorageFiles = treeConfig.StorageFiles ++
          parentFilesSpec (fun x => (p.Files x).getD []) ca) :=
  ⟨fun p files ca cfg hfiles hca => addParentFiles_resolved p files ca cfg hfiles hca,
   Join_rootDir_under, Join_rootDir, parentFilesSpec_under,
   fun _ eng maxStrings env Assets Marshal p a a' warnings h =>
     Generate_returned_files eng maxStrings env Assets Marshal p a a' warnings h⟩

/-- C10, as amended, on the store `parents`: `addParentFiles` returns with the five
files in the order manifest, kubeconfig, root CA certificate, journal, each below
/opt/openshift. -/
theorem addParentFiles_contributions_witness :
    addParentFiles Example.parents Example.emptyConfig =
      .returned { Example.emptyConfig with StorageFiles :=
          [⟨"/opt/openshift/manifests/a.yaml", "root", 0o644, "A", false⟩,
           ⟨"/opt/openshift/auth/kubeconfig-kubelet", "root", 0o600, "K", false⟩,
           ⟨"/opt/openshift/tls/root-ca.crt", "root", 0o644, "C", false⟩,
           ⟨"/opt/openshift/tls/journal.crt", "systemd-journal-gateway", 0o600, "JC", false⟩,
           ⟨"/opt/openshift/tls/journal.key", "systemd-journal-gateway", 0o600, "JK",
             false⟩] } :=
  (addParentFiles_contributions.1 Example.parents Example.parentsFiles
    ⟨⟨"tls/root-ca.crt", "C"⟩, "C", "SECRET"⟩ Example.emptyConfig
    (by decide) rfl).trans (by decide)

/-- C10 as stated fails on the store `escapingParents`: `addParentFiles` returns, and
the one file it adds, for the root CA certificate whose file is called ../root-ca.crt,
is placed at /opt/root-ca.crt, which is not below /opt/openshift. -/
theorem addParentFiles_counterexample :
    addParentFiles Example.escapingParents Example.emptyConfig =
      .returned { Example.emptyConfig with StorageFiles :=
        [⟨"/opt/root-ca.crt", "root", 0o644, "C", false⟩] } ∧
    ¬ ∀ f ∈ [(⟨"/opt/root-ca.crt", "root", 0o644, "C", false⟩ : igntypes.File)],
        path.isUnder "/opt/openshift" f.Path = true := by
  refine ⟨by decide, by decide⟩

end ParentFiles

section DependencyList

open bootstrap

theorem Has_eq_files (p : asset.Parents) (a : AssetId) (h1 : a ≠ .InstallConfig)
    (h2 : a ≠ .RootCA) : p.Has a = (p.Files a).isSome := by
  cases a <;> first | rfl | exact absurd rfl h1 | exact absurd rfl h2

theorem fileAssets_not_special :
    ∀ a ∈ manifestAssets ++ credentialAssets ++ [AssetId.JournalCertKey],
      a ≠ AssetId.InstallConfig ∧ a ≠ AssetId.RootCA := by
  decide

theorem fileAssets_subset_Dependencies :
    ∀ a ∈ manifestAssets ++ credentialAssets ++ [AssetId.JournalCertKey],
      a ∈ Dependencies := by
  decide

theorem Dependencies_cases :
    ∀ a ∈ Dependencies, a = AssetId.InstallConfig ∨ a = AssetId.RootCA ∨
      a ∈ manifestAssets ++ credentialAssets ++ [AssetId.JournalCertKey] := by
  decide

theorem special_mem_Dependencies :
    AssetId.InstallConfig ∈ Dependencies ∧ AssetId.RootCA ∈ Dependencies := by
  decide

theorem Dependencies_nodup : Dependencies.Nodup := by
  decide

theorem parentAssets_nodup :
    (manifestAssets ++ credentialAssets ++ [AssetId.RootCA, AssetId.JournalCertKey]).Nodup := by
  decide

theorem addParentFiles_of_resolved (p : asset.Parents) (cfg : igntypes.Config)
    (h : ∀ a ∈ Dependencies, p.Has a = true) :
    ∃ cfg', addParentFiles p cfg = .returned cfg' := by
  have hfiles : ∀ a ∈ manifestAssets ++ credentialAssets ++ [AssetId.JournalCertKey],
      p.Files a = some ((p.Files a).getD []) := by
    intro a ha
    have hs := fileAssets_not_special a ha
    have hh := h a (fileAssets_subset_Dependencies a ha)
    rw [Has_eq_files p a hs.1 hs.2] at hh
    cases hf : p.Files a with
    | none => rw [hf] at hh; cases hh
    | some fs => rfl
  have hca := h _ special_mem_Dependencies.2
  simp only [asset.Parents.Has] at hca
  cases hr : p.RootCA with
  | none => rw [hr] at hca; cases hca
  | some ca => exact ⟨_, addParentFiles_resolved p _ ca cfg hfiles hr⟩

theorem addParentFiles_of_missing (p : asset.Parents) (cfg : igntypes.Config) (a : AssetId)
    (ha : a ∈ Dependencies) (hne : a ≠ AssetId.InstallConfig) (hmiss : p.Has a = false) :
    ∃ v, addParentFiles p cfg = .panicked v := by
  rcases Dependencies_cases a ha with h | h | h
  · exact absurd h hne
  · subst h
    simp only [asset.Parents.Has] at hmiss
    exact addParentFiles_missing p cfg (Or.inr (by simpa using hmiss))
  · have hs := fileAssets_not_special a h
    rw [Has_eq_files p a hs.1 hs.2] at hmiss
    exact addParentFiles_missing p cfg (Or.inl ⟨a, h, by simpa using hmiss⟩)

theorem Generate_of_missing_installConfig {T : Type}
    (eng : TemplateEngine T bootstrapTemplateData) (maxStrings : Nat)
    (env : String → Option String) (Assets : String → FsNode)
    (Marshal : igntypes.Config → Except GoError String) (p : asset.Parents) (a : Bootstrap)
    (h : p.Has AssetId.InstallConfig = false) :
    Generate eng maxStrings env Assets Marshal p a = .panicked asset.errNotInStore := by
  simp only [asset.Parents.Has] at h
  have hic : p.InstallConfig = none := by simpa using h
  simp [Generate, asset.Parents.GetInstallConfig, hic]

theorem Generate_of_resolved {T : Type}
    (eng : TemplateEngine T bootstrapTemplateData) (maxStrings : Nat)
    (env : String → Option String) (Assets : String → FsNode)
    (Marshal : igntypes.Config → Except GoError String) (p : asset.Parents) (a : Bootstrap)
    (h : ∀ x ∈ Dependencies, p.Has x = true) :
    ∃ ic, p.InstallConfig = some ic ∧
      ∀ td warnings treeConfig unitsConfig,
        getTemplateData maxStrings env ic = .returned (td, none, warnings) →
        addStorageFiles eng "/" "bootstrap/files" (Assets "bootstrap/files") td
          ⟨MaxVersion, [], [], []⟩ = .returned (treeConfig, none) →
        addSystemdUnits eng (Assets "bootstrap/systemd/units") td treeConfig
          = .returned (unitsConfig, none) →
        ∃ a' err, Generate eng maxStrings env Assets Marshal p a
          = .returned (a', err, warnings) := by
  have hh := h _ special_mem_Dependencies.1
  simp only [asset.Parents.Has] at hh
  cases hic : p.InstallConfig with
  | none => rw [hic] at hh; cases hh
  | some ic =>
    refine ⟨ic, rfl, ?_⟩
    intro td warnings treeConfig unitsConfig htd htree hunits
    obtain ⟨cfg', hpf⟩ := addParentFiles_of_resolved p unitsConfig h
    simp only [Generate, asset.Parents.GetInstallConfig, hic, htd, htree, hunits, hpf]
    split
    · exact ⟨_, _, rfl⟩
    · exact ⟨_, _, rfl⟩

theorem Generate_of_missing {T : Type}
    (eng : TemplateEngine T bootstrapTemplateData) (maxStrings : Nat)
    (env : String → Option String) (Assets : String → FsNode)
    (Marshal : igntypes.Config → Except GoError String) (p : asset.Parents) (a : Bootstrap)
    (x : AssetId) (hx : x ∈ Dependencies) (hmiss : p.Has x = false)
    (ic : types.InstallConfig) (td : bootstrapTemplateData) (warnings : List String)
    (treeConfig unitsConfig : igntypes.Config)
    (hic : x ≠ AssetId.InstallConfig → p.InstallConfig = some ic)
    (htd : getTemplateData maxStrings env ic = .returned (td, none, warnings))
    (htree : addStorageFiles eng "/" "bootstrap/files" (Assets "bootstrap/files") td
      ⟨MaxVersion, [], [], []⟩ = .returned (treeConfig, none))
    (hunits : addSystemdUnits eng (Assets "bootstrap/systemd/units") td treeConfig
      = .returned (unitsConfig, none)) :
    ∃ v, Generate eng maxStrings env Assets Marshal p a = .panicked v := by
  by_cases hne : x = AssetId.InstallConfig
  · subst hne
    exact ⟨_, Generate_of_missing_installConfig eng maxStrings env Assets Marshal p a hmiss⟩
  · obtain ⟨v, hv⟩ := addParentFiles_of_missing p unitsConfig x hx hne hmiss
    exact ⟨v, by
      simp only [Generate, asset.Parents.GetInstallConfig, hic hne, htd, htree, hunits, hv]⟩

/-- C11: the dependency list of the Bootstrap asset and what its generation asks the
store for coincide.  No type occurs twice in `Dependencies()`, and none occurs twice
across the two lists, the root CA and the journal key pair that `addParentFiles` asks
for, so no asset's files are added twice.  With a store that holds every type of
`Dependencies()`, whatever else it holds or lacks, no `Get` of `addParentFiles` or of
`Generate` fails: `addParentFiles` returns, and `Generate` returns whenever the template
data and the two template trees are processed without an error.  And every type of
`Dependencies()` is asked for: with a store that lacks one of them, `addParentFiles`
panics (for the install config, `Generate` panics at once), so such a `Generate`
panics. -/
theorem Dependencies_coincide_with_gets :
    Dependencies.Nodup ∧
    (manifestAssets ++ credentialAssets ++ [AssetId.RootCA, AssetId.JournalCertKey]).Nodup ∧
    (∀ (p : asset.Parents) (cfg : igntypes.Config),
      (∀ x ∈ Dependencies, p.Has x = true) →
      ∃ cfg', addParentFiles p cfg = .returned cfg') ∧
    (∀ (p : asset.Parents) (cfg : igntypes.Config) (x : AssetId),
      x ∈ Dependencies → x ≠ AssetId.InstallConfig → p.Has x = false →
      ∃ v, addParentFiles p cfg = .panicked v) ∧
    (∀ (T : Type) (eng : TemplateEngine T bootstrapTemplateData) (maxStrings : Nat)
      (env : String → Option String) (Assets : String → FsNode)
      (Marshal : igntypes.Config → Except GoError String) (p : asset.Parents)
      (a : Bootstrap),
      p.Has AssetId.InstallConfig = false →
      Generate eng maxStrings env Assets Marshal p a = .panicked asset.errNotInStore) ∧
    (∀ (T : Type) (eng : TemplateEngine T bootstrapTemplateData) (maxStrings : Nat)
      (env : String → Option String) (Assets : String → FsNode)
      (Marshal : igntypes.Config → Except GoError String) (p : asset.Parents)
      (a : Bootstrap),
      (∀ x ∈ Dependencies, p.Has x = true) →
      ∃ ic, p.InstallConfig = some ic ∧
        ∀ td warnings treeConfig unitsConfig,
          getTemplateData maxStrings env ic = .returned (td, none, warnings) →
          addStorageFiles eng "/" "bootstrap/files" (Assets "bootstrap/files") td
            ⟨MaxVersion, [], [], []⟩ = .returned (treeConfig, none) →
          addSystemdUnits eng (Assets "bootstrap/systemd/units") td treeConfig
            = .returned (unitsConfig, none) →
          ∃ a' err, Generate eng maxStrings env Assets Marshal p a
            = .returned (a', err, warnings)) ∧
    (∀ (T : Type) (eng : TemplateEngine T bootstrapTemplateData) (maxStrings : Nat)
      (env : String → Option String) (Assets : String → FsNode)
      (Marshal : igntypes.Config → Except GoError String) (p : asset.Parents)
      (a : Bootstrap) (x : AssetId) (ic : types.InstallConfig)
      (td : bootstrapTemplateData) (warnings : List String)
      (treeConfig unitsConfig : igntypes.Config),
      x ∈ Dependencies → p.Has x = false →
      (x ≠ AssetId.InstallConfig → p.InstallConfig = some ic) →
      getTemplateData maxStrings env ic = .returned (td, none, warnings) →
      addStorageFiles eng "/" "bootstrap/files" (Assets "bootstrap/files") td
        ⟨MaxVersion, [], [], []⟩ = .returned (treeConfig, none) →
      addSystemdUnits eng (Assets "bootstrap/systemd/units") td treeConfig
        = .returned (unitsConfig, none) →
      ∃ v, Generate eng maxStrings env Assets Marshal p a = .panicked v) :=
  ⟨Dependencies_nodup, parentAssets_nodup,
   fun p cfg h => addParentFiles_of_resolved p cfg h,
   fun p cfg x hx hne hmiss => addParentFiles_of_missing p cfg x hx hne hmiss,
   fun _ eng maxStrings env Assets Marshal p a h =>
     Generate_of_missing_installConfig eng maxStrings env Assets Marshal p a h,
   fun _ eng maxStrings env Assets Marshal p a h =>
     Generate_of_resolved eng maxStrings env Assets Marshal p a h,
   fun _ eng maxStrings env Assets Marshal p a x ic td warnings treeConfig unitsConfig
       hx hmiss hic htd htree hunits =>
     Generate_of_missing eng maxStrings env Assets Marshal p a x hx hmiss ic td warnings
       treeConfig unitsConfig hic htd htree hunits⟩

theorem parents_Generate_run :
    Generate Example.templateEngine Example.maxStrings (fun _ => none) Example.assets
        Example.marshal Example.parents ⟨none, none⟩ =
      .returned
        (⟨some
            { IgnitionVersion := "2.2.0",
              StorageFiles := Example.filesTreeFiles ++
                [⟨"/opt/openshift/manifests/a.yaml", "root", 0o644, "A", false⟩,
                 ⟨"/opt/openshift/auth/kubeconfig-kubelet", "root", 0o600, "K", false⟩,
                 ⟨"/opt/openshift/tls/root-ca.crt", "root", 0o644, "C", false⟩,
                 ⟨"/opt/openshift/tls/journal.crt", "systemd-journal-gateway", 0o600, "JC",
                   false⟩,
                 ⟨"/opt/openshift/tls/journal.key", "systemd-journal-gateway", 0o600, "JK",
                   false⟩],
              SystemdUnits := Example.unitsTreeUnits,
              PasswdUsers := [⟨"core", ["key"]⟩] },
          some ⟨"bootstrap.ign", "{}"⟩⟩, none, []) := by
  decide

/-- C11 on the store `parents`, which holds the declared dependencies and nothing else:
`Generate` returns without an error; with the kubelet kubeconfig taken out of the store,
`addParentFiles` panics. -/
theorem Dependencies_coincide_with_gets_witness :
    (∃ a', Generate Example.templateEngine Example.maxStrings (fun _ => none)
        Example.assets Example.marshal Example.parents ⟨none, none⟩ =
      .returned (a', none, [])) ∧
    (∃ cfg', addParentFiles Example.parents Example.emptyConfig = .returned cfg') ∧
    (∃ v, addParentFiles Example.parentsWithoutKubelet Example.emptyConfig = .panicked v) :=
  ⟨⟨_, parents_Generate_run⟩,
   Dependencies_coincide_with_gets.2.2.1 Example.parents Example.emptyConfig (by decide),
   Dependencies_coincide_with_gets.2.2.2.1 Example.parentsWithoutKubelet Example.emptyConfig
     AssetId.Kubelet (by decide) (by decide) (by decide)⟩

end DependencyList

end KniInstaller
